import Mathlib

/-!
# Event history and alarm engine of `Lab3/Task1/clicker-ng.c`

A shallow embedding of the static state (`event_history`, `event_count`,
`last_event_time`, the LEDs) and of the functions `is_address_in_history`,
`add_event`, `check_alarm`, `check_inactivity` and `recv`, and of the role
classifier `update_node_role` of `Lab3/Task2/Lab3Task2.c`, followed by the
properties proved about them.

Conventions of the embedding:
* C `int` variables (`event_count`, `i`, `j`) are `Int`; they stay far from the
  limits of `int`, so no overflow is modelled;
* `clock_time_t` is an unsigned integer of `bits` bits, at least as wide as
  `int` (it is `uint32_t` or `uint64_t` in Contiki-NG), so the difference
  `now - t` is taken modulo `2 ^ bits`;
* `CLOCK_SECOND` and `bits` come from platform headers and are parameters;
* an access `event_history[k]` outside the array makes the enclosing
  function return `none`;
* `clock_time()` is an input: the value it returns is the argument `now`;
* `printf` output is not modelled.
-/

namespace ClickerNg

/-- Link-layer address (`linkaddr_t`); `linkaddr_cmp` is equality of addresses. -/
abbrev linkaddr_t := Nat

/-- One entry of the history: `struct event`. -/
structure event where
  time : Nat
  addr : linkaddr_t
deriving DecidableEq, Repr

/-- Platform constants that the headers provide: the number of clock ticks per
second and the width in bits of the unsigned type `clock_time_t`. -/
structure ClockConf where
  CLOCK_SECOND : Nat
  bits : Nat
deriving DecidableEq, Repr

/-- The three LEDs driven through `leds_on`, `leds_off` and `leds_toggle`, taken
to be three distinct lamps (`LEDS_GREEN`, `LEDS_YELLOW`, `LEDS_RED`). -/
structure Leds where
  green : Bool
  yellow : Bool
  red : Bool
deriving DecidableEq, Repr

/-- The static variables of the program together with the LED outputs. -/
structure State where
  event_history : List event
  event_count : Int
  last_event_time : Nat
  leds : Leds
deriving DecidableEq, Repr

/-- The macro `MAX_NUMBER_OF_EVENTS`, an `int` constant. -/
def MAX_NUMBER_OF_EVENTS : Int := 3

/-- The macro `EVENT_TIMEOUT`, `(30 * CLOCK_SECOND)`. The product is exact: on the
platforms of Contiki-NG it fits `int` and `clock_time_t`. -/
def EVENT_TIMEOUT (c : ClockConf) : Nat := 30 * c.CLOCK_SECOND

/-- Subtraction of two `clock_time_t` values: unsigned, modulo `2 ^ bits`. -/
def clock_sub (c : ClockConf) (a b : Nat) : Nat :=
  (((a : Int) - (b : Int)) % ((2 : Int) ^ c.bits)).toNat

/-- Read of `event_history[k]`. -/
def arr_get (h : List event) (k : Int) : Option event :=
  if 0 ≤ k then h[k.toNat]? else none

/-- Store `event_history[k] = e`. -/
def arr_set (h : List event) (k : Int) (e : event) : Option (List event) :=
  if 0 ≤ k ∧ k.toNat < h.length then some (h.set k.toNat e) else none

/-- The condition `now - event_history[i].time > EVENT_TIMEOUT`. -/
def expired (c : ClockConf) (now : Nat) (e : event) : Bool :=
  decide (clock_sub c now e.time > EVENT_TIMEOUT c)

/-- The loop of `is_address_in_history`, entered at index `i`. -/
def is_address_loop (h : List event) (count : Int) (addr : linkaddr_t) (i : Int) :
    Option Bool :=
  if i < count then
    match arr_get h i with
    | none => none
    | some e => if e.addr = addr then some true else is_address_loop h count addr (i + 1)
  else some false
termination_by (count - i).toNat
decreasing_by omega

/-- The function `is_address_in_history(addr)`: `true` for the C result 1. -/
def is_address_in_history (s : State) (addr : linkaddr_t) : Option Bool :=
  is_address_loop s.event_history s.event_count addr 0

/-- The inner loop of `add_event`, entered at index `j`:
`for (j = i; j < event_count - 1; j++) event_history[j] = event_history[j + 1];` -/
def shift_loop (h : List event) (count : Int) (j : Int) : Option (List event) :=
  if j < count - 1 then
    match arr_get h (j + 1) with
    | none => none
    | some e =>
      match arr_set h j e with
      | none => none
      | some h1 => shift_loop h1 count (j + 1)
  else some h
termination_by (count - 1 - j).toNat
decreasing_by omega

/-- The outer loop of `add_event` ("Remove expired events"), entered at index `i`.
After a removal the body runs `event_count--; i--;` and the loop header then
runs `i++`. -/
def expire_loop (c : ClockConf) (now : Nat) (s : State) (i : Int) : Option State :=
  if i < s.event_count then
    match arr_get s.event_history i with
    | none => none
    | some e =>
      if expired c now e then
        match shift_loop s.event_history s.event_count i with
        | none => none
        | some h1 =>
          expire_loop c now
            { s with event_history := h1, event_count := s.event_count - 1 } (i - 1 + 1)
      else expire_loop c now s (i + 1)
  else some s
termination_by (s.event_count - i).toNat
decreasing_by
  all_goals simp_wf
  all_goals omega

/-- The two stores `event_history[k].time = now;` and
`linkaddr_copy(&event_history[k].addr, addr);`. -/
def store_event (h : List event) (k : Int) (now : Nat) (addr : linkaddr_t) :
    Option (List event) :=
  match arr_get h k with
  | none => none
  | some e0 =>
    match arr_set h k { e0 with time := now } with
    | none => none
    | some h1 =>
      match arr_get h1 k with
      | none => none
      | some e1 => arr_set h1 k { e1 with addr := addr }

/-- The loop of `print_event_history`, entered at index `i`. Only its reads of
`event_history[i]` are modelled; the text it prints is not. -/
def print_loop (h : List event) (count : Int) (i : Int) : Option Unit :=
  if i < count then
    match arr_get h i with
    | none => none
    | some _ => print_loop h count (i + 1)
  else some ()
termination_by (count - i).toNat
decreasing_by omega

/-- The function `print_event_history()`. -/
def print_event_history (s : State) : Option Unit :=
  print_loop s.event_history s.event_count 0

/-- The admission step of `add_event`:
`if (!is_address_in_history(addr) && event_count < MAX_NUMBER_OF_EVENTS) { ... }`,
where `found` is the value returned by `is_address_in_history(addr)`. -/
def admission_step (s : State) (addr : linkaddr_t) (now : Nat) (found : Bool) : Option State :=
  if !found && decide (s.event_count < MAX_NUMBER_OF_EVENTS) then
    match store_event s.event_history s.event_count now addr with
    | none => none
    | some h1 => some { s with event_history := h1, event_count := s.event_count + 1 }
  else some s

/-- The function `add_event(addr)`, where `now` is the value of `clock_time()`. -/
def add_event (c : ClockConf) (s : State) (addr : linkaddr_t) (now : Nat) : Option State :=
  match expire_loop c now { s with last_event_time := now } 0 with
  | none => none
  | some s1 =>
    match is_address_in_history s1 addr with
    | none => none
    | some found =>
      match admission_step s1 addr now found with
      | none => none
      | some s2 =>
        match print_event_history s2 with
        | none => none
        | some _ => some s2

/-- The condition tested by `check_alarm`: `event_count >= MAX_NUMBER_OF_EVENTS`. -/
def alarm_condition (s : State) : Bool :=
  decide (s.event_count ≥ MAX_NUMBER_OF_EVENTS)

/-- The function `check_alarm()`: `leds_on(LEDS_YELLOW)` when the condition holds. -/
def check_alarm (s : State) : State :=
  if alarm_condition s then { s with leds := { s.leds with yellow := true } } else s

/-- The condition tested by `check_inactivity`:
`event_count > 0 && (now - last_event_time > EVENT_TIMEOUT)`. -/
def inactivity_condition (c : ClockConf) (s : State) (now : Nat) : Bool :=
  decide (s.event_count > 0) && decide (clock_sub c now s.last_event_time > EVENT_TIMEOUT c)

/-- The function `check_inactivity()`: `leds_off(LEDS_YELLOW)` when the condition
holds; `now` is the value of `clock_time()`. -/
def check_inactivity (c : ClockConf) (s : State) (now : Nat) : State :=
  if inactivity_condition c s now then { s with leds := { s.leds with yellow := false } } else s

/-- The state at program start: the static array is zero-initialised,
`event_count = 0`, `last_event_time = 0`; the LEDs are as the board left them. -/
def init_state (l : Leds) : State :=
  { event_history := List.replicate 3 { time := 0, addr := 0 }
    event_count := 0
    last_event_time := 0
    leds := l }

/-- One call into the engine, with the clock value it observes. -/
inductive Call where
  | add_event (addr : linkaddr_t) (now : Nat)
  | check_alarm
  | check_inactivity (now : Nat)
deriving DecidableEq, Repr

/-- The effect of one call on the state. -/
def step (c : ClockConf) (s : State) : Call → Option State
  | Call.add_event addr now => add_event c s addr now
  | Call.check_alarm => some (check_alarm s)
  | Call.check_inactivity now => some (check_inactivity c s now)

/-- Run a sequence of calls, left to right. -/
def run (c : ClockConf) (s : State) : List Call → Option State
  | [] => some s
  | x :: xs =>
    match step c s x with
    | none => none
    | some s1 => run c s1 xs

/-- The records of the history: the first `event_count` entries of the array. -/
def records (s : State) : List event :=
  s.event_history.take s.event_count.toNat

/-- A record is kept by the expiry pass when it is not expired at `now`. -/
def kept (c : ClockConf) (now : Nat) (e : event) : Bool := !expired c now e

/-- The array has its declared size and `event_count` is within `0 .. MAX_NUMBER_OF_EVENTS`. -/
def wf (s : State) : Prop :=
  s.event_history.length = 3 ∧ 0 ≤ s.event_count ∧ s.event_count ≤ MAX_NUMBER_OF_EVENTS

instance (s : State) : Decidable (wf s) := by
  unfold wf; infer_instance

/-- Whether some record of `rs` was reported by `addr`. -/
def has_addr (rs : List event) (addr : linkaddr_t) : Bool :=
  rs.any (fun e => decide (e.addr = addr))

/-- Specification of `record_event` on the list of records: drop the expired
records, then append `{now, addr}` when no survivor has that address and fewer
than `MAX_NUMBER_OF_EVENTS` records survive. -/
def spec_record_event (c : ClockConf) (rs : List event) (addr : linkaddr_t) (now : Nat) :
    List event :=
  let sv := rs.filter (kept c now)
  if !has_addr sv addr && decide ((sv.length : Int) < MAX_NUMBER_OF_EVENTS) then
    sv ++ [{ time := now, addr := addr }]
  else sv

/-- The list-level description of a sequence of `add_event` calls, each given as
a pair (reporter address, clock value). -/
def spec_run (c : ClockConf) (rs : List event) (evs : List (linkaddr_t × Nat)) : List event :=
  evs.foldl (fun acc p => spec_record_event c acc p.1 p.2) rs

/-! ## LED interface, packet and button handlers of `clicker-ng.c` -/

/-- The LED mask `LEDS_GREEN`: a mask is the set of lamps it names. -/
def LEDS_GREEN : Leds := { green := true, yellow := false, red := false }

/-- The LED mask `LEDS_YELLOW`. -/
def LEDS_YELLOW : Leds := { green := false, yellow := true, red := false }

/-- The LED mask `LEDS_RED`. -/
def LEDS_RED : Leds := { green := false, yellow := false, red := true }

/-- Union of two LED masks, the C expression `a | b`. -/
def leds_or (a b : Leds) : Leds :=
  { green := a.green || b.green, yellow := a.yellow || b.yellow, red := a.red || b.red }

/-- The call `leds_on(mask)`. -/
def leds_on (l mask : Leds) : Leds :=
  { green := l.green || mask.green, yellow := l.yellow || mask.yellow, red := l.red || mask.red }

/-- The call `leds_off(mask)`. -/
def leds_off (l mask : Leds) : Leds :=
  { green := l.green && !mask.green, yellow := l.yellow && !mask.yellow,
    red := l.red && !mask.red }

/-- The call `leds_toggle(mask)`. -/
def leds_toggle (l mask : Leds) : Leds :=
  { green := xor l.green mask.green, yellow := xor l.yellow mask.yellow,
    red := xor l.red mask.red }

/-- The callback `recv(data, len, src, dest)`: `leds_toggle(LEDS_GREEN)`, then
`add_event(src)`, then `check_alarm()`. -/
def recv (c : ClockConf) (s : State) (src : linkaddr_t) (now : Nat) : Option State :=
  match add_event c { s with leds := leds_toggle s.leds LEDS_GREEN } src now with
  | none => none
  | some s1 => some (check_alarm s1)

/-- The button branch of `clicker_ng_process`: `leds_toggle(LEDS_RED)`, then
`add_event(&linkaddr_node_addr)`, then `check_alarm()`; the broadcast that follows
does not touch the state. `self` is the value of `linkaddr_node_addr`. -/
def button_branch (c : ClockConf) (self : linkaddr_t) (s : State) (now : Nat) : Option State :=
  match add_event c { s with leds := leds_toggle s.leds LEDS_RED } self now with
  | none => none
  | some s1 => some (check_alarm s1)

/-- What wakes the program up: a received packet, a button press, or the
expired inactivity timer; each with the clock value its handler reads. -/
inductive Trigger where
  | packet (src : linkaddr_t) (now : Nat)
  | button (now : Nat)
  | timer (now : Nat)
deriving DecidableEq, Repr

/-- The handler run for one trigger; the timer branch is `check_inactivity()`. -/
def handle (c : ClockConf) (self : linkaddr_t) (s : State) : Trigger → Option State
  | Trigger.packet src now => recv c s src now
  | Trigger.button now => button_branch c self s now
  | Trigger.timer now => some (check_inactivity c s now)

/-- Run the handlers of a sequence of triggers, left to right. -/
def run_triggers (c : ClockConf) (self : linkaddr_t) (s : State) : List Trigger → Option State
  | [] => some s
  | t :: ts =>
    match handle c self s t with
    | none => none
    | some s1 => run_triggers c self s1 ts

/-- One iteration of the expiry loop of `add_event` at index `i` (entered when
`i < event_count`): the loop body followed by the `i++` of the loop header. It
returns the new state and the new index. -/
def expire_body (c : ClockConf) (now : Nat) (s : State) (i : Int) : Option (State × Int) :=
  match arr_get s.event_history i with
  | none => none
  | some e =>
    if expired c now e then
      match shift_loop s.event_history s.event_count i with
      | none => none
      | some h1 =>
        some ({ s with event_history := h1, event_count := s.event_count - 1 }, i - 1 + 1)
    else some (s, i + 1)

/-- Whether a call is an `add_event` call. -/
def is_add_event : Call → Bool
  | Call.add_event _ _ => true
  | _ => false

/-- The records are in non-decreasing order of time and none is later than
`last_event_time`. -/
def time_ordered (s : State) : Prop :=
  (records s).Pairwise (fun a b => a.time ≤ b.time) ∧
  ∀ r ∈ records s, r.time ≤ s.last_event_time

/-! ## Role classifier of `Lab3/Task2/Lab3Task2.c` -/

/-- One entry of the routing table (`uip_ds6_route_t`): the destination and the
result of `uip_ds6_route_nexthop`, `none` for `NULL`. -/
structure route where
  ipaddr : Nat
  nexthop : Option Nat
deriving DecidableEq, Repr

/-- The loop `while (route) { if (uip_ds6_route_nexthop(route) != NULL)
{ has_children = 1; break; } route = uip_ds6_route_next(route); }` over the
routes from `uip_ds6_route_head()` on; the result is the final `has_children`. -/
def has_children_loop : List route → Int
  | [] => 0
  | r :: rest => if r.nexthop ≠ none then 1 else has_children_loop rest

/-- The function `update_node_role()`: `node_id` is the global of that name,
`reachable` the value returned by `NETSTACK_ROUTING.node_is_reachable()`,
`routes` the routing table and `l` the LEDs before the call. -/
def update_node_role (node_id : Nat) (reachable : Int) (routes : List route) (l : Leds) : Leds :=
  let is_root : Int := if node_id = 1 then 1 else 0
  let has_parent : Int := if reachable ≠ 0 then 1 else 0
  let has_children : Int := has_children_loop routes
  if is_root ≠ 0 then
    leds_off (leds_on l LEDS_GREEN) (leds_or LEDS_YELLOW LEDS_RED)
  else if has_parent ≠ 0 ∧ has_children ≠ 0 then
    leds_off (leds_on l LEDS_YELLOW) (leds_or LEDS_GREEN LEDS_RED)
  else if has_parent ≠ 0 ∧ ¬ (has_children ≠ 0) then
    leds_off (leds_on l LEDS_RED) (leds_or LEDS_GREEN LEDS_YELLOW)
  else
    leds_off l (leds_or (leds_or LEDS_GREEN LEDS_YELLOW) LEDS_RED)

/-- A platform used for concrete instances: 128 ticks per second, 32-bit clock. -/
def example_conf : ClockConf := { CLOCK_SECOND := 128, bits := 32 }

/-- All LEDs off. -/
def example_leds : Leds := { green := false, yellow := false, red := false }

/-- A full history used for concrete instances: reporters 1, 2, 3 recorded at
ticks 0, 640 and 1280. -/
def example_state : State :=
  { event_history := [{ time := 0, addr := 1 }, { time := 640, addr := 2 },
      { time := 1280, addr := 3 }]
    event_count := 3
    last_event_time := 1280
    leds := example_leds }

/-- A second full history with the same `event_count` and `last_event_time` as
`example_state` but other records. -/
def example_state_b : State :=
  { event_history := [{ time := 100, addr := 5 }, { time := 200, addr := 6 },
      { time := 300, addr := 7 }]
    event_count := 3
    last_event_time := 1280
    leds := { green := true, yellow := true, red := false } }

/-! # Properties -/

/-! ## Array accesses -/

theorem arr_get_nat (h : List event) (k : Nat) : arr_get h (k : Int) = h[k]? := by
  simp [arr_get]

theorem arr_set_nat (h : List event) (k : Nat) (e : event) (hk : k < h.length) :
    arr_set h (k : Int) e = some (h.set k e) := by
  simp [arr_set, hk]

/-! ## The inner shift loop -/

theorem shift_loop_spec (n : Nat) :
    ∀ (d : Nat) (h : List event) (j : Nat), n - 1 - j = d → n ≤ h.length →
      ∃ h1, shift_loop h (n : Int) (j : Int) = some h1 ∧ h1.length = h.length ∧
        ∀ k : Nat, h1[k]? = if j ≤ k ∧ k + 1 < n then h[k + 1]? else h[k]? := by
  intro d
  induction d with
  | zero =>
    intro h j hd hn
    refine ⟨h, ?_, rfl, ?_⟩
    · rw [shift_loop]
      have : ¬ ((j : Int) < (n : Int) - 1) := by omega
      simp [this]
    · intro k
      have : ¬ (j ≤ k ∧ k + 1 < n) := by omega
      simp [this]
  | succ d ih =>
    intro h j hd hn
    have hj : (j : Int) < (n : Int) - 1 := by omega
    have hj1 : j + 1 < h.length := by omega
    have hj0 : j < h.length := by omega
    obtain ⟨h1, e1, l1, g1⟩ := ih (h.set j h[j + 1]) (j + 1) (by omega) (by simpa using hn)
    refine ⟨h1, ?_, by simpa using l1, ?_⟩
    · rw [shift_loop]
      have e2 : arr_get h ((j : Int) + 1) = some h[j + 1] := by
        have := arr_get_nat h (j + 1)
        rw [List.getElem?_eq_getElem hj1] at this
        simpa using this
      have e3 : arr_set h (j : Int) h[j + 1] = some (h.set j h[j + 1]) :=
        arr_set_nat h j _ hj0
      simp only [hj, if_true, e2, e3]
      simpa using e1
    · intro k
      rw [g1 k]
      by_cases c1 : j + 1 ≤ k ∧ k + 1 < n
      · have c2 : j ≤ k ∧ k + 1 < n := by omega
        rw [if_pos c1, if_pos c2, List.getElem?_set]
        have : ¬ (j = k + 1) := by omega
        simp [this]
      · rw [if_neg c1, List.getElem?_set]
        by_cases c3 : j = k
        · subst c3
          have c2 : j ≤ j ∧ j + 1 < n := by omega
          simp [hj0, c2, List.getElem?_eq_getElem hj1]
        · have c2 : ¬ (j ≤ k ∧ k + 1 < n) := by omega
          simp [c3, c2]

theorem shift_loop_take (h : List event) (n i : Nat) (hi : i < n) (hn : n ≤ h.length) :
    ∃ h1, shift_loop h (n : Int) (i : Int) = some h1 ∧ h1.length = h.length ∧
      h1.take (n - 1) = (h.take n).eraseIdx i := by
  obtain ⟨h1, e1, l1, g1⟩ := shift_loop_spec n (n - 1 - i) h i rfl hn
  refine ⟨h1, e1, l1, ?_⟩
  apply List.ext_getElem?
  intro k
  rw [List.getElem?_take, List.getElem?_eraseIdx, List.getElem?_take, List.getElem?_take, g1 k]
  by_cases c1 : k < n - 1
  · by_cases c2 : k < i
    · have c3 : ¬ (i ≤ k ∧ k + 1 < n) := by omega
      have c4 : k < n := by omega
      simp [c1, c2, c3, c4]
    · have c3 : i ≤ k ∧ k + 1 < n := by omega
      have c4 : k + 1 < n := by omega
      simp [c1, c2, c3, c4]
  · by_cases c2 : k < i
    · omega
    · have c4 : ¬ (k + 1 < n) := by omega
      simp [c1, c2, c4]

/-! ## The expiry loop -/

theorem expire_loop_spec (c : ClockConf) (now : Nat) :
    ∀ (d : Nat) (s : State) (n i : Nat), s.event_count = (n : Int) → n - i = d → i ≤ n →
      n ≤ s.event_history.length →
      ∃ s1, expire_loop c now s (i : Int) = some s1 ∧
        s1.event_history.length = s.event_history.length ∧
        s1.last_event_time = s.last_event_time ∧ s1.leds = s.leds ∧
        0 ≤ s1.event_count ∧ s1.event_count ≤ s.event_count ∧
        records s1 = (records s).take i ++ ((records s).drop i).filter (kept c now) := by
  intro d
  induction d with
  | zero =>
    intro s n i hc hd hi hn
    have hin : i = n := by omega
    subst hin
    refine ⟨s, ?_, rfl, rfl, rfl, by omega, le_refl _, ?_⟩
    · rw [expire_loop]
      simp [hc]
    · have hl : (records s).length ≤ i := by simp [records, hc]
      rw [List.drop_of_length_le hl, List.take_of_length_le hl]
      simp
  | succ d ih =>
    intro s n i hc hd hi hn
    have hin : i < n := by omega
    have hil : i < s.event_history.length := by omega
    have hrec : records s = s.event_history.take n := by simp [records, hc]
    have hrl : i < (records s).length := by simp [hrec]; omega
    have hri : (records s)[i] = s.event_history[i] := by simp [hrec]
    have hget : arr_get s.event_history (i : Int) = some s.event_history[i] := by
      rw [arr_get_nat, List.getElem?_eq_getElem hil]
    have hlt : (i : Int) < s.event_count := by omega
    have hdrop : (records s).drop i = s.event_history[i] :: (records s).drop (i + 1) := by
      rw [List.drop_eq_getElem_cons hrl, hri]
    by_cases hx : expired c now s.event_history[i] = true
    · obtain ⟨h1, e1, l1, t1⟩ := shift_loop_take s.event_history n i hin hn
      obtain ⟨s1, e2, l2, t2, d2, p2, q2, r2⟩ :=
        ih { s with event_history := h1, event_count := s.event_count - 1 } (n - 1) i
          (by simp [hc]; omega) (by omega) (by omega) (by simp [l1]; omega)
      refine ⟨s1, ?_, by simpa [l1] using l2, by simpa using t2, by simpa using d2, p2,
        by simp at q2; omega, ?_⟩
      · rw [expire_loop]
        simp only [hlt, if_true, hget, hx]
        rw [hc, e1]
        simp only [sub_add_cancel]
        rw [← hc]
        exact e2
      · have hr1 : records { s with event_history := h1, event_count := s.event_count - 1 }
            = (records s).eraseIdx i := by
          have e3 : (s.event_count - 1).toNat = n - 1 := by omega
          have e4 : s.event_count.toNat = n := by omega
          show List.take (s.event_count - 1).toNat h1
            = (List.take s.event_count.toNat s.event_history).eraseIdx i
          rw [e3, e4, t1]
        rw [r2, hr1, hdrop, List.eraseIdx_eq_take_drop_succ]
        have hk : kept c now s.event_history[i] = false := by simp [kept, hx]
        rw [List.filter_cons_of_neg (by simp [hk])]
        have hlen : (List.take i (records s)).length = i := by
          simp; omega
        rw [List.take_append_of_le_length (by omega), List.take_take, min_self]
        rw [List.drop_append_of_le_length (by omega),
          List.drop_of_length_le (le_of_eq hlen)]
        simp
    · obtain ⟨s1, e2, l2, t2, d2, p2, q2, r2⟩ := ih s n (i + 1) hc (by omega) (by omega) hn
      refine ⟨s1, ?_, l2, t2, d2, p2, q2, ?_⟩
      · rw [expire_loop]
        simp only [hlt, if_true, hget, hx]
        simpa using e2
      · have hk : kept c now s.event_history[i] = true := by simpa [kept] using hx
        rw [r2, hdrop, List.filter_cons_of_pos hk, List.take_succ,
          List.getElem?_eq_getElem hrl, hri]
        simp

/-! ## The membership loop -/

theorem is_address_loop_spec (h : List event) (n : Nat) (addr : linkaddr_t)
    (hn : n ≤ h.length) :
    ∀ (d i : Nat), n - i = d → i ≤ n →
      is_address_loop h (n : Int) addr (i : Int)
        = some (((h.take n).drop i).any (fun e => decide (e.addr = addr))) := by
  intro d
  induction d with
  | zero =>
    intro i hd hi
    rw [is_address_loop]
    have h1 : ¬ ((i : Int) < (n : Int)) := by omega
    have h2 : (h.take n).drop i = [] := by
      apply List.drop_of_length_le
      simp; omega
    simp [h1, h2]
  | succ d ih =>
    intro i hd hi
    have hin : i < n := by omega
    have hil : i < h.length := by omega
    have hlt : (i : Int) < (n : Int) := by omega
    have hget : arr_get h (i : Int) = some h[i] := by
      rw [arr_get_nat, List.getElem?_eq_getElem hil]
    have hrl : i < (h.take n).length := by simp; omega
    have hdrop : (h.take n).drop i = h[i] :: (h.take n).drop (i + 1) := by
      rw [List.drop_eq_getElem_cons hrl]; simp
    rw [is_address_loop]
    simp only [hlt, if_true, hget, hdrop, List.any_cons]
    by_cases hx : h[i].addr = addr
    · simp [hx]
    · have := ih (i + 1) (by omega) (by omega)
      simp only [hx, if_false, decide_False, Bool.false_or]
      simpa using this

/-! ## The admission stores -/

theorem store_event_spec (h : List event) (k : Nat) (now : Nat) (addr : linkaddr_t)
    (hk : k < h.length) :
    store_event h (k : Int) now addr = some (h.set k { time := now, addr := addr }) := by
  have e1 : arr_get h (k : Int) = some h[k] := by
    rw [arr_get_nat, List.getElem?_eq_getElem hk]
  have hk1 : k < (h.set k { h[k] with time := now }).length := by simpa using hk
  have e2 : arr_set h (k : Int) { h[k] with time := now }
      = some (h.set k { h[k] with time := now }) := arr_set_nat h k _ hk
  have e3 : arr_get (h.set k { h[k] with time := now }) (k : Int)
      = some { h[k] with time := now } := by
    rw [arr_get_nat, List.getElem?_eq_getElem hk1]; simp
  have e4 := arr_set_nat (h.set k { h[k] with time := now }) k
    { time := now, addr := addr } hk1
  simp only [store_event, e1, e2, e3]
  simpa using e4

/-! ## Well-formed states and the list-level description of `add_event` -/

theorem records_length (s : State) (hs : wf s) : ((records s).length : Int) = s.event_count := by
  obtain ⟨h1, h2, h3⟩ := hs
  simp only [MAX_NUMBER_OF_EVENTS] at h3
  simp [records, h1]
  omega

theorem expire_pass_spec (c : ClockConf) (now : Nat) (s : State) (hs : wf s) :
    ∃ s1, expire_loop c now s 0 = some s1 ∧ wf s1 ∧
      s1.last_event_time = s.last_event_time ∧ s1.leds = s.leds ∧
      records s1 = (records s).filter (kept c now) := by
  obtain ⟨h1, h2, h3⟩ := hs
  obtain ⟨n, hn⟩ := Int.eq_ofNat_of_zero_le h2
  simp only [MAX_NUMBER_OF_EVENTS] at h3
  obtain ⟨s1, e1, l1, t1, d1, p1, q1, r1⟩ :=
    expire_loop_spec c now n s n 0 hn rfl (Nat.zero_le _) (by omega)
  refine ⟨s1, by simpa using e1, ⟨by omega, p1, ?_⟩, t1, d1, by simpa using r1⟩
  simp only [MAX_NUMBER_OF_EVENTS]; omega

theorem print_loop_spec (h : List event) (n : Nat) (hn : n ≤ h.length) :
    ∀ (d i : Nat), n - i = d → print_loop h (n : Int) (i : Int) = some () := by
  intro d
  induction d with
  | zero =>
    intro i hd
    rw [print_loop]
    have h1 : ¬ ((i : Int) < (n : Int)) := by omega
    simp [h1]
  | succ d ih =>
    intro i hd
    have hil : i < h.length := by omega
    have hlt : (i : Int) < (n : Int) := by omega
    have hget : arr_get h (i : Int) = some h[i] := by
      rw [arr_get_nat, List.getElem?_eq_getElem hil]
    rw [print_loop]
    simp only [hlt, if_true, hget]
    simpa using ih (i + 1) (by omega)

theorem print_event_history_spec (s : State) (hs : wf s) : print_event_history s = some () := by
  obtain ⟨h1, h2, h3⟩ := hs
  obtain ⟨n, hn⟩ := Int.eq_ofNat_of_zero_le h2
  simp only [MAX_NUMBER_OF_EVENTS] at h3
  have := print_loop_spec s.event_history n (by omega) n 0 rfl
  simp only [print_event_history, hn]
  simpa using this

theorem add_event_spec (c : ClockConf) (s : State) (addr : linkaddr_t) (now : Nat)
    (hs : wf s) :
    ∃ s1, add_event c s addr now = some s1 ∧ wf s1 ∧
      records s1 = spec_record_event c (records s) addr now ∧
      s1.last_event_time = now ∧ s1.leds = s.leds := by
  have hs0 : wf { s with last_event_time := now } := hs
  obtain ⟨s1, e1, w1, t1, d1, r1⟩ := expire_pass_spec c now _ hs0
  have r1 : records s1 = (records s).filter (kept c now) := r1
  have w1b := w1
  obtain ⟨l1, p1, q1⟩ := w1
  obtain ⟨n, hn⟩ := Int.eq_ofNat_of_zero_le p1
  simp only [MAX_NUMBER_OF_EVENTS] at q1
  have hnl : n ≤ s1.event_history.length := by omega
  have e2 : is_address_in_history s1 addr = some (has_addr (records s1) addr) := by
    have := is_address_loop_spec s1.event_history n addr hnl n 0 rfl (Nat.zero_le _)
    simp only [is_address_in_history, hn, has_addr, records, Int.toNat_ofNat]
    simpa using this
  have hlen : ((records s1).length : Int) = s1.event_count := records_length s1 w1b
  have key : ∃ s2, admission_step s1 addr now (has_addr (records s1) addr) = some s2 ∧ wf s2 ∧
      records s2 = spec_record_event c (records s) addr now ∧
      s2.last_event_time = now ∧ s2.leds = s.leds := by
    simp only [admission_step, spec_record_event, ← r1, hlen]
    by_cases hc : (!has_addr (records s1) addr
        && decide (s1.event_count < MAX_NUMBER_OF_EVENTS)) = true
    · have hlt : s1.event_count < MAX_NUMBER_OF_EVENTS := by
        simp only [Bool.and_eq_true, decide_eq_true_eq] at hc
        exact hc.2
      simp only [MAX_NUMBER_OF_EVENTS] at hlt
      have hk : n < s1.event_history.length := by omega
      have e3 := store_event_spec s1.event_history n now addr hk
      rw [← hn] at e3
      simp only [hc, if_true, e3]
      refine ⟨_, rfl, ⟨by simpa using l1, by simp; omega,
        by simp [MAX_NUMBER_OF_EVENTS]; omega⟩, ?_, by simpa using t1, by simpa using d1⟩
      have e4 : (s1.event_count + 1).toNat = n + 1 := by omega
      have e5 : s1.event_count.toNat = n := by omega
      show List.take (s1.event_count + 1).toNat (s1.event_history.set n _)
        = List.take s1.event_count.toNat s1.event_history ++ [_]
      rw [e4, e5, List.take_succ, List.getElem?_set]
      have e6 : List.take n (s1.event_history.set n { time := now, addr := addr })
          = List.take n s1.event_history := by
        apply List.ext_getElem?
        intro k
        rw [List.getElem?_take, List.getElem?_take, List.getElem?_set]
        by_cases hkn : k < n
        · have : ¬ (n = k) := by omega
          simp [hkn, this]
        · simp [hkn]
      simp [hk, e6]
    · simp only [hc]
      exact ⟨s1, by simp, w1b, by simp, by simpa using t1, by simpa using d1⟩
  obtain ⟨s2, e3, w2, r2, t2, d2⟩ := key
  refine ⟨s2, ?_, w2, r2, t2, d2⟩
  simp only [add_event, e1, e2, e3, print_event_history_spec s2 w2]

/-! ## Sequences of calls -/

theorem check_alarm_wf (s : State) (hs : wf s) : wf (check_alarm s) := by
  unfold check_alarm
  split <;> exact hs

theorem check_inactivity_wf (c : ClockConf) (s : State) (now : Nat) (hs : wf s) :
    wf (check_inactivity c s now) := by
  unfold check_inactivity
  split <;> exact hs

theorem step_wf (c : ClockConf) (s : State) (x : Call) (hs : wf s) :
    ∃ s1, step c s x = some s1 ∧ wf s1 := by
  cases x with
  | add_event addr now =>
    obtain ⟨s1, e1, w1, _⟩ := add_event_spec c s addr now hs
    exact ⟨s1, e1, w1⟩
  | check_alarm => exact ⟨_, rfl, check_alarm_wf s hs⟩
  | check_inactivity now => exact ⟨_, rfl, check_inactivity_wf c s now hs⟩

theorem init_state_wf (l : Leds) : wf (init_state l) := by
  simp [wf, init_state, MAX_NUMBER_OF_EVENTS]

theorem run_cons (c : ClockConf) (s s1 : State) (x : Call) (xs : List Call)
    (h : step c s x = some s1) : run c s (x :: xs) = run c s1 xs := by
  simp [run, h]

/-- Induction principle for runs: a property of well-formed states that every
call preserves holds after every sequence of calls. -/
theorem run_invariant (c : ClockConf) (P : State → Prop)
    (hstep : ∀ s x s1, wf s → P s → step c s x = some s1 → P s1) :
    ∀ (xs : List Call) (s : State), wf s → P s → ∃ s1, run c s xs = some s1 ∧ wf s1 ∧ P s1 := by
  intro xs
  induction xs with
  | nil => intro s hs hp; exact ⟨s, rfl, hs, hp⟩
  | cons x xs ih =>
    intro s hs hp
    obtain ⟨s1, e1, w1⟩ := step_wf c s x hs
    obtain ⟨s2, e2, w2, p2⟩ := ih s1 w1 (hstep s x s1 hs hp e1)
    exact ⟨s2, by rw [run_cons c s s1 x xs e1]; exact e2, w2, p2⟩

theorem records_check_alarm (s : State) : records (check_alarm s) = records s := by
  unfold check_alarm
  split <;> rfl

theorem records_check_inactivity (c : ClockConf) (s : State) (now : Nat) :
    records (check_inactivity c s now) = records s := by
  unfold check_inactivity
  split <;> rfl

/-! ## Addresses of the records -/

theorem has_addr_eq_false (rs : List event) (addr : linkaddr_t) :
    has_addr rs addr = false ↔ ∀ r ∈ rs, r.addr ≠ addr := by
  simp [has_addr]

theorem spec_record_event_nodup (c : ClockConf) (rs : List event) (addr : linkaddr_t)
    (now : Nat) (h : (rs.map event.addr).Nodup) :
    ((spec_record_event c rs addr now).map event.addr).Nodup := by
  have hsv : ((rs.filter (kept c now)).map event.addr).Nodup :=
    h.sublist ((List.filter_sublist rs).map event.addr)
  unfold spec_record_event
  simp only []
  split
  · rename_i hc
    simp only [Bool.and_eq_true, Bool.not_eq_true', decide_eq_true_eq] at hc
    have hno := (has_addr_eq_false _ _).1 hc.1
    rw [List.map_append, List.nodup_append]
    refine ⟨hsv, by simp, ?_⟩
    intro a ha hb
    simp only [List.map_cons, List.map_nil, List.mem_singleton] at hb
    obtain ⟨r, hr, hra⟩ := List.mem_map.1 ha
    exact hno r hr (hra.trans hb)
  · exact hsv

/-! # The claims -/

/-- C1 (capacity invariant): from the initial state, after every sequence of
`add_event`, `check_alarm` and `check_inactivity` calls, with any reporter
addresses and any clock values, every call returns and the resulting state has
`0 <= event_count <= MAX_NUMBER_OF_EVENTS`, with `event_count` records. -/
theorem C1_capacity_invariant (c : ClockConf) (l : Leds) (calls : List Call) :
    ∃ s, run c (init_state l) calls = some s ∧
      0 ≤ s.event_count ∧ s.event_count ≤ MAX_NUMBER_OF_EVENTS ∧
      ((records s).length : Int) = s.event_count := by
  obtain ⟨s, e, w, _⟩ :=
    run_invariant c (fun _ => True) (fun _ _ _ _ _ _ => trivial) calls (init_state l)
      (init_state_wf l) trivial
  exact ⟨s, e, w.2.1, w.2.2, records_length s w⟩

/-- C2 (dedup invariant): `add_event` preserves, for every reporter and every
clock value, the property that no two records have the same reporter address;
hence the property holds in every state reached from the empty history. -/
theorem C2_dedup_invariant (c : ClockConf) :
    (∀ (s : State) (addr : linkaddr_t) (now : Nat), wf s →
        ((records s).map event.addr).Nodup →
        ∃ s1, add_event c s addr now = some s1 ∧ ((records s1).map event.addr).Nodup) ∧
    (∀ (l : Leds) (calls : List Call),
        ∃ s, run c (init_state l) calls = some s ∧ ((records s).map event.addr).Nodup) := by
  have hadd : ∀ (s : State) (addr : linkaddr_t) (now : Nat), wf s →
      ((records s).map event.addr).Nodup →
      ∃ s1, add_event c s addr now = some s1 ∧ ((records s1).map event.addr).Nodup := by
    intro s addr now hs hn
    obtain ⟨s1, e1, _, r1, _⟩ := add_event_spec c s addr now hs
    exact ⟨s1, e1, by rw [r1]; exact spec_record_event_nodup c _ addr now hn⟩
  refine ⟨hadd, ?_⟩
  intro l calls
  obtain ⟨s, e, _, p⟩ :=
    run_invariant c (fun s => ((records s).map event.addr).Nodup)
      (by
        intro s x s1 hs hp hx
        cases x with
        | add_event addr now =>
          obtain ⟨s2, e2, p2⟩ := hadd s addr now hs hp
          have : s1 = s2 := by
            have h3 : some s1 = some s2 := hx.symm.trans e2
            exact Option.some.inj h3
          rw [this]; exact p2
        | check_alarm =>
          have : s1 = check_alarm s := (Option.some.inj hx).symm
          rw [this, records_check_alarm]; exact hp
        | check_inactivity now =>
          have : s1 = check_inactivity c s now := (Option.some.inj hx).symm
          rw [this, records_check_inactivity]; exact hp)
      calls (init_state l) (init_state_wf l) (by simp [records, init_state])
  exact ⟨s, e, p⟩

/-- C3 (the expiry pass is a stable compaction): for every well-formed history and
every `now`, the shift loop of `add_event` returns, and the records it leaves are
the old records `r` with not `now - r.time > EVENT_TIMEOUT`, in their old order
and unchanged; `event_count` becomes the number of those records. -/
theorem C3_expiry_is_filter (c : ClockConf) (now : Nat) (s : State) (hs : wf s) :
    ∃ s1, expire_loop c now s 0 = some s1 ∧
      records s1
        = (records s).filter (fun r => !decide (clock_sub c now r.time > EVENT_TIMEOUT c)) ∧
      s1.event_count
        = (((records s).filter
            (fun r => !decide (clock_sub c now r.time > EVENT_TIMEOUT c))).length : Int) := by
  obtain ⟨s1, e1, w1, _, _, r1⟩ := expire_pass_spec c now s hs
  have r2 : records s1
      = (records s).filter (fun r => !decide (clock_sub c now r.time > EVENT_TIMEOUT c)) := r1
  refine ⟨s1, e1, r2, ?_⟩
  rw [← r2]
  exact (records_length s1 w1).symm

theorem C3_expiry_is_filter_witness :
    wf example_state ∧
    ∃ s1, expire_loop example_conf 4000 example_state 0 = some s1 ∧
      records s1
        = (records example_state).filter
            (fun r => !decide (clock_sub example_conf 4000 r.time > EVENT_TIMEOUT example_conf)) ∧
      s1.event_count
        = (((records example_state).filter
            (fun r => !decide (clock_sub example_conf 4000 r.time
              > EVENT_TIMEOUT example_conf))).length : Int) :=
  ⟨by decide, C3_expiry_is_filter example_conf 4000 example_state (by decide)⟩

theorem C2_dedup_invariant_witness :
    wf example_state ∧ ((records example_state).map event.addr).Nodup ∧
    ∃ s1, add_event example_conf example_state 4 4000 = some s1 ∧
      ((records s1).map event.addr).Nodup :=
  ⟨by decide, by decide,
    (C2_dedup_invariant example_conf).1 example_state 4 4000 (by decide) (by decide)⟩


/-! ## Clock arithmetic -/

theorem clock_sub_eq_mod (c : ClockConf) (a b : Nat) (h : b ≤ a) :
    clock_sub c a b = (a - b) % 2 ^ c.bits := by
  unfold clock_sub
  have h1 : ((a : Int) - (b : Int)) = ((a - b : Nat) : Int) := by omega
  have h2 : ((a - b : Nat) : Int) % ((2 : Int) ^ c.bits)
      = (((a - b) % 2 ^ c.bits : Nat) : Int) := by
    push_cast
    rfl
  rw [h1, h2, Int.toNat_ofNat]

theorem clock_sub_le (c : ClockConf) (a b : Nat) (h : b ≤ a) : clock_sub c a b ≤ a - b := by
  rw [clock_sub_eq_mod c a b h]
  exact Nat.mod_le _ _

theorem clock_sub_eq (c : ClockConf) (a b : Nat) (h : b ≤ a) (ha : a < 2 ^ c.bits) :
    clock_sub c a b = a - b := by
  rw [clock_sub_eq_mod c a b h]
  exact Nat.mod_eq_of_lt (by omega)

theorem kept_of_le (c : ClockConf) (now : Nat) (e : event) (h1 : e.time ≤ now)
    (h2 : now - e.time ≤ EVENT_TIMEOUT c) : kept c now e = true := by
  have := clock_sub_le c now e.time h1
  simp only [kept, expired, Bool.not_eq_true', decide_eq_false_iff_not, not_lt, ge_iff_le, gt_iff_lt]
  omega

theorem not_kept_of_lt (c : ClockConf) (now : Nat) (e : event) (h1 : now < 2 ^ c.bits)
    (h2 : e.time + EVENT_TIMEOUT c < now) : kept c now e = false := by
  have := clock_sub_eq c now e.time (by omega) h1
  simp only [kept, expired, Bool.not_eq_false', decide_eq_true_eq, gt_iff_lt]
  omega

/-! ## Consequences of the list-level description -/

theorem spec_record_event_accept (c : ClockConf) (rs : List event) (addr : linkaddr_t) (now : Nat)
    (h1 : ∀ r ∈ rs.filter (kept c now), r.addr ≠ addr)
    (h2 : ((rs.filter (kept c now)).length : Int) < MAX_NUMBER_OF_EVENTS) :
    spec_record_event c rs addr now = rs.filter (kept c now) ++ [{ time := now, addr := addr }] := by
  have := (has_addr_eq_false _ _).2 h1
  simp [spec_record_event, this, h2]

theorem spec_record_event_reject (c : ClockConf) (rs : List event) (addr : linkaddr_t) (now : Nat)
    (h : ¬ ((∀ r ∈ rs.filter (kept c now), r.addr ≠ addr) ∧
      ((rs.filter (kept c now)).length : Int) < MAX_NUMBER_OF_EVENTS)) :
    spec_record_event c rs addr now = rs.filter (kept c now) := by
  rw [← has_addr_eq_false] at h
  unfold spec_record_event
  simp only []
  rw [if_neg]
  simpa using h

theorem add_event_unique (c : ClockConf) (s : State) (addr : linkaddr_t) (now : Nat)
    (s1 s2 : State) (h1 : add_event c s addr now = some s1)
    (h2 : add_event c s addr now = some s2) : s1 = s2 :=
  Option.some.inj (h1.symm.trans h2)

/-- C4 (admission rule): for every well-formed history, reporter and `now`, with
`s0` the state after the expiry pass, `add_event` appends exactly the record
`{now, addr}` after the surviving records if and only if no surviving record has
address `addr` and fewer than `MAX_NUMBER_OF_EVENTS` records survive; otherwise
the final records are the surviving records. -/
theorem C4_admission_rule (c : ClockConf) (s : State) (addr : linkaddr_t) (now : Nat)
    (hs : wf s) :
    ∃ s0 s1, expire_loop c now { s with last_event_time := now } 0 = some s0 ∧
      add_event c s addr now = some s1 ∧
      (records s1 = records s0 ++ [{ time := now, addr := addr }] ↔
        ((∀ r ∈ records s0, r.addr ≠ addr) ∧ s0.event_count < MAX_NUMBER_OF_EVENTS)) ∧
      (¬ ((∀ r ∈ records s0, r.addr ≠ addr) ∧ s0.event_count < MAX_NUMBER_OF_EVENTS) →
        records s1 = records s0) := by
  have hs0 : wf { s with last_event_time := now } := hs
  obtain ⟨s0, e0, w0, _, _, r0⟩ := expire_pass_spec c now _ hs0
  have r0 : records s0 = (records s).filter (kept c now) := r0
  obtain ⟨s1, e1, _, r1, _⟩ := add_event_spec c s addr now hs
  have hl := records_length s0 w0
  refine ⟨s0, s1, e0, e1, ?_, ?_⟩
  · constructor
    · intro h
      by_contra hn
      rw [r0, hl.symm, r0] at hn
      rw [r1, spec_record_event_reject c _ addr now hn, r0] at h
      have := congrArg List.length h
      simp at this
    · intro h
      rw [r0, hl.symm, r0] at h
      rw [r1, spec_record_event_accept c _ addr now h.1 h.2, r0]
  · intro hn
    rw [r0, hl.symm, r0] at hn
    rw [r1, spec_record_event_reject c _ addr now hn, r0]

theorem C4_admission_rule_witness :
    wf example_state ∧
    ∃ s0 s1, expire_loop example_conf 4000 { example_state with last_event_time := 4000 } 0
        = some s0 ∧
      add_event example_conf example_state 4 4000 = some s1 ∧
      (records s1 = records s0 ++ [{ time := 4000, addr := 4 }] ↔
        ((∀ r ∈ records s0, r.addr ≠ 4) ∧ s0.event_count < MAX_NUMBER_OF_EVENTS)) ∧
      (¬ ((∀ r ∈ records s0, r.addr ≠ 4) ∧ s0.event_count < MAX_NUMBER_OF_EVENTS) →
        records s1 = records s0) :=
  ⟨by decide, C4_admission_rule example_conf example_state 4 4000 (by decide)⟩

theorem mem_spec_record_event (c : ClockConf) (rs : List event) (addr : linkaddr_t) (now : Nat)
    (r : event) (h : r ∈ spec_record_event c rs addr now) :
    (r ∈ rs ∧ kept c now r = true) ∨ r = { time := now, addr := addr } := by
  unfold spec_record_event at h
  simp only [] at h
  split at h
  · rw [List.mem_append, List.mem_filter, List.mem_singleton] at h
    exact h
  · rw [List.mem_filter] at h
    exact Or.inl h

/-- C5 (no timestamp refresh): if `add_event(id)` at `t1` admits a new record for
`id`, a following `add_event(id)` at `t2` with `t1 <= t2` and
`t2 - t1 <= EVENT_TIMEOUT` leaves exactly one record for `id`, still carrying
`t1`, and admits nothing: the records are the survivors of the previous ones.
In particular `add_event(A)` at 0 s and at 10 s from the initial state leaves the
single record `{0, A}`. -/
theorem C5_no_timestamp_refresh (c : ClockConf) :
    (∀ (s s1 : State) (id : linkaddr_t) (t1 t2 : Nat), wf s →
        add_event c s id t1 = some s1 →
        records s1 = (records s).filter (kept c t1) ++ [{ time := t1, addr := id }] →
        t1 ≤ t2 → t2 - t1 ≤ EVENT_TIMEOUT c →
        ∃ s2, add_event c s1 id t2 = some s2 ∧
          (records s2).filter (fun r => decide (r.addr = id)) = [{ time := t1, addr := id }] ∧
          records s2 = (records s1).filter
            (fun r => !decide (clock_sub c t2 r.time > EVENT_TIMEOUT c))) ∧
    (∀ (l : Leds) (A : linkaddr_t),
        ∃ s2, run c (init_state l)
            [Call.add_event A 0, Call.add_event A (10 * c.CLOCK_SECOND)] = some s2 ∧
          records s2 = [{ time := 0, addr := A }]) := by
  have main : ∀ (s s1 : State) (id : linkaddr_t) (t1 t2 : Nat), wf s →
      add_event c s id t1 = some s1 →
      records s1 = (records s).filter (kept c t1) ++ [{ time := t1, addr := id }] →
      t1 ≤ t2 → t2 - t1 ≤ EVENT_TIMEOUT c →
      ∃ s2, add_event c s1 id t2 = some s2 ∧
        (records s2).filter (fun r => decide (r.addr = id)) = [{ time := t1, addr := id }] ∧
        records s2 = (records s1).filter
          (fun r => !decide (clock_sub c t2 r.time > EVENT_TIMEOUT c)) := by
    intro s s1 id t1 t2 hs h1 hadm h12 hto
    obtain ⟨s1b, e1, w1, r1, _⟩ := add_event_spec c s id t1 hs
    have hs1 : s1b = s1 := add_event_unique c s id t1 s1b s1 e1 h1
    subst hs1
    -- no survivor of the first call was reported by `id`
    have hno : ∀ r ∈ (records s).filter (kept c t1), r.addr ≠ id := by
      by_contra hn
      have hrej := spec_record_event_reject c (records s) id t1 (fun h => hn h.1)
      rw [r1, hrej] at hadm
      have := congrArg List.length hadm
      simp at this
    obtain ⟨s2, e2, _, r2, _⟩ := add_event_spec c s1b id t2 w1
    have hk : kept c t2 { time := t1, addr := id } = true :=
      kept_of_le c t2 _ h12 hto
    have hf : (records s1b).filter (kept c t2)
        = ((records s).filter (kept c t1)).filter (kept c t2) ++ [{ time := t1, addr := id }] := by
      rw [hadm, List.filter_append, List.filter_cons_of_pos hk, List.filter_nil]
    have hrej : spec_record_event c (records s1b) id t2 = (records s1b).filter (kept c t2) := by
      apply spec_record_event_reject
      intro h
      exact h.1 { time := t1, addr := id } (by rw [hf]; simp) rfl
    refine ⟨s2, e2, ?_, by rw [r2, hrej]; rfl⟩
    rw [r2, hrej, hf, List.filter_append]
    have hnil : (((records s).filter (kept c t1)).filter (kept c t2)).filter
        (fun r => decide (r.addr = id)) = [] := by
      rw [List.filter_eq_nil_iff]
      intro r hr
      have := hno r (List.mem_of_mem_filter hr)
      simpa using this
    rw [hnil]
    simp
  refine ⟨main, ?_⟩
  intro l A
  obtain ⟨s1, e1, w1, r1, _⟩ := add_event_spec c (init_state l) A 0 (init_state_wf l)
  have hr1 : records s1 = (records (init_state l)).filter (kept c 0)
      ++ [{ time := 0, addr := A }] := by
    rw [r1]
    simp [spec_record_event, records, init_state, has_addr, MAX_NUMBER_OF_EVENTS]
  obtain ⟨s2, e2, f2, r2⟩ := main (init_state l) s1 A 0 (10 * c.CLOCK_SECOND)
    (init_state_wf l) e1 hr1 (Nat.zero_le _) (by simp [EVENT_TIMEOUT]; omega)
  refine ⟨s2, ?_, ?_⟩
  · rw [run_cons c (init_state l) s1 (Call.add_event A 0) _ e1,
      run_cons c s1 s2 (Call.add_event A (10 * c.CLOCK_SECOND)) _ e2]
    rfl
  · have hk : kept c (10 * c.CLOCK_SECOND) { time := 0, addr := A } = true :=
      kept_of_le c _ _ (Nat.zero_le _) (by simp [EVENT_TIMEOUT]; omega)
    have hk2 : (!decide (clock_sub c (10 * c.CLOCK_SECOND) 0 > EVENT_TIMEOUT c)) = true := hk
    rw [r2, hr1]
    simp [records, init_state, hk2]

theorem C5_no_timestamp_refresh_witness :
    wf (init_state example_leds) ∧
    (∃ s1, add_event example_conf (init_state example_leds) 7 100 = some s1 ∧
      records s1 = (records (init_state example_leds)).filter (kept example_conf 100)
        ++ [{ time := 100, addr := 7 }] ∧
      100 ≤ 200 ∧ 200 - 100 ≤ EVENT_TIMEOUT example_conf ∧
      ∃ s2, add_event example_conf s1 7 200 = some s2 ∧
        (records s2).filter (fun r => decide (r.addr = 7)) = [{ time := 100, addr := 7 }] ∧
        records s2 = (records s1).filter
          (fun r => !decide (clock_sub example_conf 200 r.time > EVENT_TIMEOUT example_conf))) := by
  obtain ⟨s1, e1, _, r1, _⟩ :=
    add_event_spec example_conf (init_state example_leds) 7 100 (by decide)
  have hr1 : records s1 = (records (init_state example_leds)).filter (kept example_conf 100)
      ++ [{ time := 100, addr := 7 }] := by
    rw [r1]; decide
  exact ⟨by decide, s1, e1, hr1, by decide, by decide,
    (C5_no_timestamp_refresh example_conf).1 (init_state example_leds) s1 7 100 200
      (by decide) e1 hr1 (by decide) (by decide)⟩


/-! ## Runs of `add_event` calls and the two scenarios of the specification -/

theorem run_add_events (c : ClockConf) :
    ∀ (evs : List (linkaddr_t × Nat)) (s : State), wf s →
      ∃ s1, run c s (evs.map (fun p => Call.add_event p.1 p.2)) = some s1 ∧ wf s1 ∧
        records s1 = spec_run c (records s) evs ∧ s1.leds = s.leds ∧
        s1.last_event_time = (evs.getLast?.map Prod.snd).getD s.last_event_time := by
  intro evs
  induction evs with
  | nil => intro s hs; exact ⟨s, rfl, hs, rfl, rfl, rfl⟩
  | cons p ps ih =>
    intro s hs
    obtain ⟨s1, e1, w1, r1, t1, d1⟩ := add_event_spec c s p.1 p.2 hs
    obtain ⟨s2, e2, w2, r2, d2, t2⟩ := ih s1 w1
    refine ⟨s2, ?_, w2, ?_, d2.trans d1, ?_⟩
    · rw [List.map_cons, run_cons c s s1 (Call.add_event p.1 p.2) _ e1]
      exact e2
    · rw [r2, r1]; rfl
    · rw [t2, t1]
      cases ps with
      | nil => rfl
      | cons q qs =>
        rw [List.getLast?_cons_cons, List.getLast?_eq_getLast _ (List.cons_ne_nil q qs)]
        rfl

theorem scenario_three (c : ClockConf) (l : Leds) (A B C : linkaddr_t)
    (hAB : A ≠ B) (hAC : A ≠ C) (hBC : B ≠ C) :
    ∃ s, run c (init_state l)
        [Call.add_event A 0, Call.add_event B (5 * c.CLOCK_SECOND),
          Call.add_event C (10 * c.CLOCK_SECOND)] = some s ∧ wf s ∧
      records s = [{ time := 0, addr := A }, { time := 5 * c.CLOCK_SECOND, addr := B },
        { time := 10 * c.CLOCK_SECOND, addr := C }] ∧
      s.leds = l ∧ s.last_event_time = 10 * c.CLOCK_SECOND := by
  obtain ⟨s, e, w, r, d, t⟩ := run_add_events c
    [(A, 0), (B, 5 * c.CLOCK_SECOND), (C, 10 * c.CLOCK_SECOND)] (init_state l) (init_state_wf l)
  refine ⟨s, e, w, ?_, d, t⟩
  have k1 : kept c (5 * c.CLOCK_SECOND) { time := 0, addr := A } = true :=
    kept_of_le c _ _ (Nat.zero_le _) (by simp [EVENT_TIMEOUT]; omega)
  have k2 : kept c (10 * c.CLOCK_SECOND) { time := 0, addr := A } = true :=
    kept_of_le c _ _ (Nat.zero_le _) (by simp [EVENT_TIMEOUT]; omega)
  have k3 : kept c (10 * c.CLOCK_SECOND) { time := 5 * c.CLOCK_SECOND, addr := B } = true :=
    kept_of_le c _ _ (by simp; omega) (by simp [EVENT_TIMEOUT]; omega)
  rw [r]
  simp [spec_run, spec_record_event, records, init_state, has_addr, MAX_NUMBER_OF_EVENTS,
    k1, k2, k3, hAB, hAC, hBC]

theorem scenario_four (c : ClockConf) (l : Leds) (A B C D : linkaddr_t)
    (hAB : A ≠ B) (hAC : A ≠ C) (hBC : B ≠ C)
    (h0 : 0 < c.CLOCK_SECOND) (hw : 45 * c.CLOCK_SECOND < 2 ^ c.bits) :
    ∃ s, run c (init_state l)
        [Call.add_event A 0, Call.add_event B (5 * c.CLOCK_SECOND),
          Call.add_event C (10 * c.CLOCK_SECOND), Call.add_event D (45 * c.CLOCK_SECOND)]
          = some s ∧ wf s ∧
      records s = [{ time := 45 * c.CLOCK_SECOND, addr := D }] ∧
      s.leds = l ∧ s.last_event_time = 45 * c.CLOCK_SECOND := by
  obtain ⟨s, e, w, r, d, t⟩ := run_add_events c
    [(A, 0), (B, 5 * c.CLOCK_SECOND), (C, 10 * c.CLOCK_SECOND), (D, 45 * c.CLOCK_SECOND)]
    (init_state l) (init_state_wf l)
  refine ⟨s, e, w, ?_, d, t⟩
  have k1 : kept c (5 * c.CLOCK_SECOND) { time := 0, addr := A } = true :=
    kept_of_le c _ _ (Nat.zero_le _) (by simp [EVENT_TIMEOUT]; omega)
  have k2 : kept c (10 * c.CLOCK_SECOND) { time := 0, addr := A } = true :=
    kept_of_le c _ _ (Nat.zero_le _) (by simp [EVENT_TIMEOUT]; omega)
  have k3 : kept c (10 * c.CLOCK_SECOND) { time := 5 * c.CLOCK_SECOND, addr := B } = true :=
    kept_of_le c _ _ (by simp; omega) (by simp [EVENT_TIMEOUT]; omega)
  have x1 : kept c (45 * c.CLOCK_SECOND) { time := 0, addr := A } = false :=
    not_kept_of_lt c _ _ hw (by simp [EVENT_TIMEOUT]; omega)
  have x2 : kept c (45 * c.CLOCK_SECOND) { time := 5 * c.CLOCK_SECOND, addr := B } = false :=
    not_kept_of_lt c _ _ hw (by simp [EVENT_TIMEOUT]; omega)
  have x3 : kept c (45 * c.CLOCK_SECOND) { time := 10 * c.CLOCK_SECOND, addr := C } = false :=
    not_kept_of_lt c _ _ hw (by simp [EVENT_TIMEOUT]; omega)
  rw [r]
  simp [spec_run, spec_record_event, records, init_state, has_addr, MAX_NUMBER_OF_EVENTS,
    k1, k2, k3, x1, x2, x3, hAB, hAC, hBC]

/-- Variant of `run_invariant` for sequences whose calls all satisfy `Q`. -/
theorem run_invariant_on (c : ClockConf) (P : State → Prop) (Q : Call → Prop)
    (hstep : ∀ s x s1, Q x → wf s → P s → step c s x = some s1 → P s1) :
    ∀ (xs : List Call) (s : State), (∀ x ∈ xs, Q x) → wf s → P s →
      ∃ s1, run c s xs = some s1 ∧ wf s1 ∧ P s1 := by
  intro xs
  induction xs with
  | nil => intro s _ hs hp; exact ⟨s, rfl, hs, hp⟩
  | cons x xs ih =>
    intro s hq hs hp
    obtain ⟨s1, e1, w1⟩ := step_wf c s x hs
    have hqx : Q x := hq x (List.mem_cons_self x xs)
    obtain ⟨s2, e2, w2, p2⟩ :=
      ih s1 (fun y hy => hq y (List.mem_cons_of_mem x hy)) w1 (hstep s x s1 hqx hs hp e1)
    exact ⟨s2, by rw [run_cons c s s1 x xs e1]; exact e2, w2, p2⟩

theorem add_event_other_absent (c : ClockConf) (s s1 : State) (id a : linkaddr_t) (now : Nat)
    (hs : wf s) (hno : ∀ r ∈ records s, r.addr ≠ id) (ha : a ≠ id)
    (h : add_event c s a now = some s1) : ∀ r ∈ records s1, r.addr ≠ id := by
  obtain ⟨s2, e2, _, r2, _⟩ := add_event_spec c s a now hs
  have : s2 = s1 := add_event_unique c s a now s2 s1 e2 h
  subst this
  intro r hr
  rw [r2] at hr
  rcases mem_spec_record_event c _ a now r hr with h1 | h1
  · exact hno r h1.1
  · rw [h1]; exact ha

/-- C6 (expiry of stale records): in a well-formed state without duplicate
reporters that holds a record `{t0, id}`, the next `add_event` call, for any
reporter, at a clock value `now > t0 + EVENT_TIMEOUT` removes that record; any
record for `id` present afterwards is the one this call inserted, with time `now`,
which happens only when the reporter is `id`. While no record for `id` is present,
every sequence of calls that contains no `add_event(id)` leaves none present, and
an `add_event(id)` that inserts one gives it its own clock value. Scenario:
A, B, C at 0 s, 5 s, 10 s and then D at 45 s leave the single record of D. -/
theorem C6_expiry_of_stale_records (c : ClockConf) :
    (∀ (s : State) (id a : linkaddr_t) (t0 now : Nat), wf s →
        ((records s).map event.addr).Nodup →
        { time := t0, addr := id } ∈ records s →
        now < 2 ^ c.bits → t0 + EVENT_TIMEOUT c < now →
        ∃ s1, add_event c s a now = some s1 ∧
          { time := t0, addr := id } ∉ records s1 ∧
          (a ≠ id → ∀ r ∈ records s1, r.addr ≠ id) ∧
          (∀ r ∈ records s1, r.addr = id → r.time = now)) ∧
    (∀ (s : State) (id : linkaddr_t) (calls : List Call), wf s →
        (∀ r ∈ records s, r.addr ≠ id) →
        (∀ now, Call.add_event id now ∉ calls) →
        ∃ s1, run c s calls = some s1 ∧ ∀ r ∈ records s1, r.addr ≠ id) ∧
    (∀ (s : State) (id : linkaddr_t) (now : Nat), wf s →
        (∀ r ∈ records s, r.addr ≠ id) →
        ∃ s1, add_event c s id now = some s1 ∧
          ∀ r ∈ records s1, r.addr = id → r.time = now) ∧
    (0 < c.CLOCK_SECOND → 45 * c.CLOCK_SECOND < 2 ^ c.bits →
      ∀ (l : Leds) (A B C D : linkaddr_t), A ≠ B → A ≠ C → B ≠ C →
        ∃ s, run c (init_state l)
            [Call.add_event A 0, Call.add_event B (5 * c.CLOCK_SECOND),
              Call.add_event C (10 * c.CLOCK_SECOND), Call.add_event D (45 * c.CLOCK_SECOND)]
              = some s ∧
          records s = [{ time := 45 * c.CLOCK_SECOND, addr := D }]) := by
  refine ⟨?_, ?_, ?_, ?_⟩
  · intro s id a t0 now hs hnd hmem hnow hlt
    obtain ⟨s1, e1, _, r1, _⟩ := add_event_spec c s a now hs
    have hx : kept c now { time := t0, addr := id } = false :=
      not_kept_of_lt c now _ hnow hlt
    have key : ∀ r ∈ records s1, r.addr = id → r = { time := now, addr := a } := by
      intro r hr hid
      rw [r1] at hr
      rcases mem_spec_record_event c _ a now r hr with h1 | h1
      · have : r = { time := t0, addr := id } :=
          List.inj_on_of_nodup_map hnd h1.1 hmem hid
        rw [this, hx] at h1
        exact absurd h1.2 (by simp)
      · exact h1
    refine ⟨s1, e1, ?_, ?_, ?_⟩
    · intro hin
      have := key _ hin rfl
      have ht : t0 = now := congrArg event.time this
      omega
    · intro ha r hr hid
      have := key r hr hid
      rw [this] at hid
      exact ha hid
    · intro r hr hid
      rw [key r hr hid]
  · intro s id calls hs hno hcalls
    obtain ⟨s1, e1, _, p1⟩ :=
      run_invariant_on c (fun s => ∀ r ∈ records s, r.addr ≠ id)
        (fun x => ∀ now, x ≠ Call.add_event id now)
        (by
          intro s x s1 hq hs hp hx
          cases x with
          | add_event a now =>
            have ha : a ≠ id := by
              intro h; exact hq now (by rw [h])
            exact add_event_other_absent c s s1 id a now hs hp ha hx
          | check_alarm =>
            have : s1 = check_alarm s := (Option.some.inj hx).symm
            rw [this, records_check_alarm]; exact hp
          | check_inactivity now =>
            have : s1 = check_inactivity c s now := (Option.some.inj hx).symm
            rw [this, records_check_inactivity]; exact hp)
        calls s
        (by
          intro x hx now h
          rw [h] at hx
          exact hcalls now hx)
        hs hno
    exact ⟨s1, e1, p1⟩
  · intro s id now hs hno
    obtain ⟨s1, e1, _, r1, _⟩ := add_event_spec c s id now hs
    refine ⟨s1, e1, ?_⟩
    intro r hr hid
    rw [r1] at hr
    rcases mem_spec_record_event c _ id now r hr with h1 | h1
    · exact absurd hid (hno r h1.1)
    · rw [h1]
  · intro h0 hw l A B C D hAB hAC hBC
    obtain ⟨s, e, _, r, _⟩ := scenario_four c l A B C D hAB hAC hBC h0 hw
    exact ⟨s, e, r⟩

theorem C6_expiry_of_stale_records_witness :
    (wf example_state ∧ ((records example_state).map event.addr).Nodup ∧
      { time := 0, addr := 1 } ∈ records example_state ∧
      4000 < 2 ^ example_conf.bits ∧ 0 + EVENT_TIMEOUT example_conf < 4000 ∧
      ∃ s1, add_event example_conf example_state 4 4000 = some s1 ∧
        { time := 0, addr := 1 } ∉ records s1 ∧
        ((4 : linkaddr_t) ≠ 1 → ∀ r ∈ records s1, r.addr ≠ 1) ∧
        (∀ r ∈ records s1, r.addr = 1 → r.time = 4000)) ∧
    (wf (init_state example_leds) ∧ (∀ r ∈ records (init_state example_leds), r.addr ≠ 1) ∧
      (∀ now, Call.add_event 1 now ∉ [Call.add_event 2 0, Call.check_inactivity 5]) ∧
      ∃ s1, run example_conf (init_state example_leds)
          [Call.add_event 2 0, Call.check_inactivity 5] = some s1 ∧
        ∀ r ∈ records s1, r.addr ≠ 1) ∧
    (∃ s1, add_event example_conf (init_state example_leds) 1 7 = some s1 ∧
        ∀ r ∈ records s1, r.addr = 1 → r.time = 7) ∧
    (0 < example_conf.CLOCK_SECOND ∧ 45 * example_conf.CLOCK_SECOND < 2 ^ example_conf.bits ∧
      ∃ s, run example_conf (init_state example_leds)
          [Call.add_event 1 0, Call.add_event 2 (5 * example_conf.CLOCK_SECOND),
            Call.add_event 3 (10 * example_conf.CLOCK_SECOND),
            Call.add_event 4 (45 * example_conf.CLOCK_SECOND)] = some s ∧
        records s = [{ time := 45 * example_conf.CLOCK_SECOND, addr := 4 }]) :=
  ⟨⟨by decide, by decide, by decide, by decide, by decide,
      (C6_expiry_of_stale_records example_conf).1 example_state 1 4 0 4000
        (by decide) (by decide) (by decide) (by decide) (by decide)⟩,
    ⟨by decide, by decide, by simp,
      (C6_expiry_of_stale_records example_conf).2.1 (init_state example_leds) 1
        [Call.add_event 2 0, Call.check_inactivity 5] (by decide) (by decide) (by simp)⟩,
    (C6_expiry_of_stale_records example_conf).2.2.1 (init_state example_leds) 1 7
      (by decide) (by decide),
    ⟨by decide, by decide,
      (C6_expiry_of_stale_records example_conf).2.2.2 (by decide) (by decide) example_leds
        1 2 3 4 (by decide) (by decide) (by decide)⟩⟩

theorem alarm_condition_iff (s : State) :
    alarm_condition s = true ↔ s.event_count ≥ MAX_NUMBER_OF_EVENTS := by
  simp [alarm_condition]

/-- C7 (alarm threshold): the condition tested by `check_alarm` is true if and
only if `event_count >= MAX_NUMBER_OF_EVENTS`; `check_alarm` switches the yellow
LED on exactly under that condition and changes neither the history, nor
`event_count`, nor `last_event_time`, nor the other LEDs; in every state reached
from the initial state the condition is the same as exactly
`MAX_NUMBER_OF_EVENTS` records being present. Scenario: it is true after A, B, C
at 0 s, 5 s, 10 s and false after the following `add_event(D)` at 45 s. -/
theorem C7_alarm_threshold (c : ClockConf) :
    (∀ s : State, alarm_condition s = true ↔ s.event_count ≥ MAX_NUMBER_OF_EVENTS) ∧
    (∀ s : State,
      (check_alarm s).leds.yellow = (s.leds.yellow || alarm_condition s) ∧
      (check_alarm s).leds.green = s.leds.green ∧ (check_alarm s).leds.red = s.leds.red ∧
      (check_alarm s).event_history = s.event_history ∧
      (check_alarm s).event_count = s.event_count ∧
      (check_alarm s).last_event_time = s.last_event_time) ∧
    (∀ (l : Leds) (calls : List Call),
      ∃ s, run c (init_state l) calls = some s ∧
        (alarm_condition s = true ↔ s.event_count = MAX_NUMBER_OF_EVENTS) ∧
        (alarm_condition s = true ↔ (records s).length = 3)) ∧
    (∀ (l : Leds) (A B C : linkaddr_t), A ≠ B → A ≠ C → B ≠ C →
      ∃ s, run c (init_state l)
          [Call.add_event A 0, Call.add_event B (5 * c.CLOCK_SECOND),
            Call.add_event C (10 * c.CLOCK_SECOND)] = some s ∧
        alarm_condition s = true) ∧
    (0 < c.CLOCK_SECOND → 45 * c.CLOCK_SECOND < 2 ^ c.bits →
      ∀ (l : Leds) (A B C D : linkaddr_t), A ≠ B → A ≠ C → B ≠ C →
        ∃ s, run c (init_state l)
            [Call.add_event A 0, Call.add_event B (5 * c.CLOCK_SECOND),
              Call.add_event C (10 * c.CLOCK_SECOND), Call.add_event D (45 * c.CLOCK_SECOND)]
              = some s ∧
          alarm_condition s = false) := by
  refine ⟨alarm_condition_iff, ?_, ?_, ?_, ?_⟩
  · intro s
    unfold check_alarm
    cases h : alarm_condition s <;> simp
  · intro l calls
    obtain ⟨s, e, w, _⟩ :=
      run_invariant c (fun _ => True) (fun _ _ _ _ _ _ => trivial) calls (init_state l)
        (init_state_wf l) trivial
    have hl := records_length s w
    obtain ⟨_, w2, w3⟩ := w
    refine ⟨s, e, ?_, ?_⟩
    · rw [alarm_condition_iff]
      constructor
      · intro h; exact le_antisymm w3 h
      · intro h; rw [h]
    · rw [alarm_condition_iff]
      simp only [MAX_NUMBER_OF_EVENTS] at *
      omega
  · intro l A B C hAB hAC hBC
    obtain ⟨s, e, w, r, _⟩ := scenario_three c l A B C hAB hAC hBC
    refine ⟨s, e, ?_⟩
    have hl := records_length s w
    rw [r] at hl
    rw [alarm_condition_iff, ← hl]
    simp [MAX_NUMBER_OF_EVENTS]
  · intro h0 hw l A B C D hAB hAC hBC
    obtain ⟨s, e, w, r, _⟩ := scenario_four c l A B C D hAB hAC hBC h0 hw
    refine ⟨s, e, ?_⟩
    have hl := records_length s w
    rw [r] at hl
    have : ¬ (s.event_count ≥ MAX_NUMBER_OF_EVENTS) := by
      rw [← hl]; simp [MAX_NUMBER_OF_EVENTS]
    rw [← alarm_condition_iff] at this
    simpa using this

theorem C7_alarm_threshold_witness :
    ((1 : linkaddr_t) ≠ 2 ∧ (1 : linkaddr_t) ≠ 3 ∧ (2 : linkaddr_t) ≠ 3 ∧
      ∃ s, run example_conf (init_state example_leds)
          [Call.add_event 1 0, Call.add_event 2 (5 * example_conf.CLOCK_SECOND),
            Call.add_event 3 (10 * example_conf.CLOCK_SECOND)] = some s ∧
        alarm_condition s = true) ∧
    (0 < example_conf.CLOCK_SECOND ∧ 45 * example_conf.CLOCK_SECOND < 2 ^ example_conf.bits ∧
      ∃ s, run example_conf (init_state example_leds)
          [Call.add_event 1 0, Call.add_event 2 (5 * example_conf.CLOCK_SECOND),
            Call.add_event 3 (10 * example_conf.CLOCK_SECOND),
            Call.add_event 4 (45 * example_conf.CLOCK_SECOND)] = some s ∧
        alarm_condition s = false) :=
  ⟨⟨by decide, by decide, by decide,
      (C7_alarm_threshold example_conf).2.2.2.1 example_leds 1 2 3
        (by decide) (by decide) (by decide)⟩,
    ⟨by decide, by decide,
      (C7_alarm_threshold example_conf).2.2.2.2 (by decide) (by decide) example_leds
        1 2 3 4 (by decide) (by decide) (by decide)⟩⟩

theorem inactivity_condition_iff (c : ClockConf) (s : State) (now : Nat)
    (h1 : s.last_event_time ≤ now) (h2 : now < 2 ^ c.bits) :
    inactivity_condition c s now = true ↔
      (s.event_count > 0 ∧ now - s.last_event_time > EVENT_TIMEOUT c) := by
  simp [inactivity_condition, clock_sub_eq c now s.last_event_time h1 h2]

/-- C8 (inactivity result): for every state and every clock value
`now >= last_event_time`, the condition under which `check_inactivity` switches
the yellow LED off holds if and only if `event_count > 0` and
`now - last_event_time > EVENT_TIMEOUT`; it depends only on `event_count`,
`last_event_time` and `now`. Scenario: after `add_event(A)` at 0 s and at 10 s,
`last_event_time` is 10 s and the condition is false at 35 s. -/
theorem C8_inactivity_result (c : ClockConf) :
    (∀ (s : State) (now : Nat), s.last_event_time ≤ now → now < 2 ^ c.bits →
      (inactivity_condition c s now = true ↔
        (s.event_count > 0 ∧ now - s.last_event_time > EVENT_TIMEOUT c))) ∧
    (∀ (s : State) (now : Nat),
      (check_inactivity c s now).leds.yellow
        = (s.leds.yellow && !inactivity_condition c s now) ∧
      (check_inactivity c s now).leds.green = s.leds.green ∧
      (check_inactivity c s now).leds.red = s.leds.red) ∧
    (∀ (s1 s2 : State) (now : Nat), s1.event_count = s2.event_count →
      s1.last_event_time = s2.last_event_time →
      inactivity_condition c s1 now = inactivity_condition c s2 now) ∧
    (∀ (l : Leds) (A : linkaddr_t),
      ∃ s, run c (init_state l)
          [Call.add_event A 0, Call.add_event A (10 * c.CLOCK_SECOND)] = some s ∧
        s.last_event_time = 10 * c.CLOCK_SECOND ∧
        inactivity_condition c s (35 * c.CLOCK_SECOND) = false) := by
  refine ⟨inactivity_condition_iff c, ?_, ?_, ?_⟩
  · intro s now
    unfold check_inactivity
    cases h : inactivity_condition c s now <;> simp
  · intro s1 s2 now h1 h2
    simp [inactivity_condition, h1, h2]
  · intro l A
    obtain ⟨s, e, _, _, _, t⟩ := run_add_events c [(A, 0), (A, 10 * c.CLOCK_SECOND)]
      (init_state l) (init_state_wf l)
    have t2 : s.last_event_time = 10 * c.CLOCK_SECOND := t
    refine ⟨s, e, t2, ?_⟩
    have := clock_sub_le c (35 * c.CLOCK_SECOND) (10 * c.CLOCK_SECOND) (by omega)
    have hn : ¬ (clock_sub c (35 * c.CLOCK_SECOND) s.last_event_time > EVENT_TIMEOUT c) := by
      rw [t2]; simp only [EVENT_TIMEOUT]; omega
    simp [inactivity_condition, hn]

theorem C8_inactivity_result_witness :
    example_state.last_event_time ≤ 6000 ∧ 6000 < 2 ^ example_conf.bits ∧
    (inactivity_condition example_conf example_state 6000 = true ↔
      (example_state.event_count > 0 ∧
        6000 - example_state.last_event_time > EVENT_TIMEOUT example_conf)) ∧
    example_state.event_count = example_state_b.event_count ∧
    example_state.last_event_time = example_state_b.last_event_time ∧
    inactivity_condition example_conf example_state 6000
      = inactivity_condition example_conf example_state_b 6000 :=
  ⟨by decide, by decide,
    (C8_inactivity_result example_conf).1 example_state 6000 (by decide) (by decide),
    rfl, rfl,
    (C8_inactivity_result example_conf).2.2.1 example_state example_state_b 6000 rfl rfl⟩

/-- C9 (`check_inactivity` leaves the engine state alone): for every state and
every `now`, after `check_inactivity` the array `event_history`, `event_count`,
`last_event_time`, and hence the records, are exactly as before, whether or not
the yellow LED was switched off; no record is removed by it. -/
theorem C9_check_inactivity_frame (c : ClockConf) (s : State) (now : Nat) :
    (check_inactivity c s now).event_history = s.event_history ∧
    (check_inactivity c s now).event_count = s.event_count ∧
    (check_inactivity c s now).last_event_time = s.last_event_time ∧
    records (check_inactivity c s now) = records s := by
  unfold check_inactivity
  split <;> exact ⟨rfl, rfl, rfl, rfl⟩

/-- C10 (`last_event_time` tracks every attempted event): for every well-formed
state, reporter and `now`, `add_event` returns and `last_event_time` equals `now`
afterwards, whether a record was admitted or the event was rejected as a
duplicate or because the history was full. -/
theorem C10_last_event_time (c : ClockConf) (s : State) (addr : linkaddr_t) (now : Nat)
    (hs : wf s) :
    ∃ s1, add_event c s addr now = some s1 ∧ s1.last_event_time = now := by
  obtain ⟨s1, e1, _, _, t1, _⟩ := add_event_spec c s addr now hs
  exact ⟨s1, e1, t1⟩

theorem C10_last_event_time_witness :
    wf example_state ∧
    ∃ s1, add_event example_conf example_state 4 1300 = some s1 ∧ s1.last_event_time = 1300 :=
  ⟨by decide, C10_last_event_time example_conf example_state 4 1300 (by decide)⟩


/-! ## Calls that expire nothing -/

theorem is_address_in_history_spec (s : State) (addr : linkaddr_t) (hs : wf s) :
    is_address_in_history s addr = some (has_addr (records s) addr) := by
  obtain ⟨l1, p1, q1⟩ := hs
  obtain ⟨n, hn⟩ := Int.eq_ofNat_of_zero_le p1
  simp only [MAX_NUMBER_OF_EVENTS] at q1
  have := is_address_loop_spec s.event_history n addr (by omega) n 0 rfl (Nat.zero_le _)
  simp only [is_address_in_history, hn, has_addr, records, Int.toNat_ofNat]
  simpa using this

theorem expire_loop_unchanged (c : ClockConf) (now : Nat) (s : State) (n : Nat)
    (hc : s.event_count = (n : Int)) (hn : n ≤ s.event_history.length)
    (hk : ∀ r ∈ records s, kept c now r = true) :
    ∀ (d i : Nat), n - i = d → i ≤ n → expire_loop c now s (i : Int) = some s := by
  intro d
  induction d with
  | zero =>
    intro i hd hi
    rw [expire_loop]
    have : ¬ ((i : Int) < s.event_count) := by omega
    simp [this]
  | succ d ih =>
    intro i hd hi
    have hil : i < s.event_history.length := by omega
    have hlt : (i : Int) < s.event_count := by omega
    have hget : arr_get s.event_history (i : Int) = some s.event_history[i] := by
      rw [arr_get_nat, List.getElem?_eq_getElem hil]
    have hmem : s.event_history[i] ∈ records s := by
      have e5 : s.event_count.toNat = n := by omega
      simp only [records, e5]
      rw [List.mem_take_iff_getElem]
      exact ⟨i, by rw [Nat.lt_min]; omega, rfl⟩
    have hx : expired c now s.event_history[i] = false := by
      have := hk _ hmem
      simpa [kept] using this
    rw [expire_loop]
    simp only [hlt, if_true, hget, hx]
    simpa using ih (i + 1) (by omega) (by omega)

theorem add_event_of_steps (c : ClockConf) (s s1 s2 : State) (addr : linkaddr_t) (now : Nat)
    (found : Bool)
    (h1 : expire_loop c now { s with last_event_time := now } 0 = some s1)
    (h2 : is_address_in_history s1 addr = some found)
    (h3 : admission_step s1 addr now found = some s2)
    (h4 : print_event_history s2 = some ()) :
    add_event c s addr now = some s2 := by
  simp only [add_event, h1, h2, h3, h4]

/-- C11 (silent rejection at capacity): when the history holds
`MAX_NUMBER_OF_EVENTS` records, none of them expired at `now` and none reported
by `id`, `add_event(id)` returns and the resulting state is the old one with
`last_event_time = now`: the array, `event_count` and hence the records, their
order and their times are unchanged. -/
theorem C11_silent_rejection (c : ClockConf) (s : State) (id : linkaddr_t) (now : Nat)
    (hs : wf s) (hfull : s.event_count = MAX_NUMBER_OF_EVENTS)
    (hfresh : ∀ r ∈ records s, ¬ (clock_sub c now r.time > EVENT_TIMEOUT c))
    (hnew : ∀ r ∈ records s, r.addr ≠ id) :
    add_event c s id now = some { s with last_event_time := now } ∧
    records { s with last_event_time := now } = records s := by
  have hs0 : wf { s with last_event_time := now } := hs
  have hk : ∀ r ∈ records { s with last_event_time := now }, kept c now r = true := by
    intro r hr
    have := hfresh r hr
    simpa [kept, expired] using this
  have h3 : s.event_count = ((3 : Nat) : Int) := by
    rw [hfull]; rfl
  have e1 : expire_loop c now { s with last_event_time := now } 0
      = some { s with last_event_time := now } := by
    have := expire_loop_unchanged c now { s with last_event_time := now } 3 h3
      (by rw [hs.1]) hk 3 0 rfl (Nat.zero_le _)
    simpa using this
  have e2 := is_address_in_history_spec { s with last_event_time := now } id hs0
  have e3 : has_addr (records { s with last_event_time := now }) id = false :=
    (has_addr_eq_false _ _).2 hnew
  have e4 := print_event_history_spec { s with last_event_time := now } hs0
  have e5 : admission_step { s with last_event_time := now } id now false
      = some { s with last_event_time := now } := by
    have hnlt : ¬ (s.event_count < MAX_NUMBER_OF_EVENTS) := by rw [hfull]; exact lt_irrefl _
    simp [admission_step, hnlt]
  rw [e3] at e2
  exact ⟨add_event_of_steps c s _ _ id now false e1 e2 e5 e4, rfl⟩

theorem C11_silent_rejection_witness :
    wf example_state ∧ example_state.event_count = MAX_NUMBER_OF_EVENTS ∧
    (∀ r ∈ records example_state,
      ¬ (clock_sub example_conf 1300 r.time > EVENT_TIMEOUT example_conf)) ∧
    (∀ r ∈ records example_state, r.addr ≠ 4) ∧
    add_event example_conf example_state 4 1300
      = some { example_state with last_event_time := 1300 } ∧
    records { example_state with last_event_time := 1300 } = records example_state :=
  ⟨by decide, by decide, by decide, by decide,
    C11_silent_rejection example_conf example_state 4 1300
      (by decide) (by decide) (by decide) (by decide)⟩

theorem clock_sub_self (c : ClockConf) (a : Nat) : clock_sub c a a = 0 := by
  simp [clock_sub]

/-- C12 (freshness after every `add_event`): on every well-formed state
`add_event` returns and no record of the resulting history is expired at `now`,
the newly admitted one included; when `now` is a clock value not smaller than any
stored timestamp, this says `now - r.time <= EVENT_TIMEOUT` for every record. -/
theorem C12_freshness (c : ClockConf) :
    (∀ (s : State) (id : linkaddr_t) (now : Nat), wf s →
      ∃ s1, add_event c s id now = some s1 ∧
        ∀ r ∈ records s1, clock_sub c now r.time ≤ EVENT_TIMEOUT c) ∧
    (∀ (s : State) (id : linkaddr_t) (now : Nat), wf s → now < 2 ^ c.bits →
      (∀ r ∈ records s, r.time ≤ now) →
      ∃ s1, add_event c s id now = some s1 ∧
        ∀ r ∈ records s1, r.time ≤ now ∧ now - r.time ≤ EVENT_TIMEOUT c) := by
  have main : ∀ (s : State) (id : linkaddr_t) (now : Nat), wf s →
      ∃ s1, add_event c s id now = some s1 ∧
        (∀ r ∈ records s1, clock_sub c now r.time ≤ EVENT_TIMEOUT c) ∧
        (∀ r ∈ records s1, r ∈ records s ∨ r.time = now) := by
    intro s id now hs
    obtain ⟨s1, e1, _, r1, _⟩ := add_event_spec c s id now hs
    refine ⟨s1, e1, ?_, ?_⟩
    · intro r hr
      rw [r1] at hr
      rcases mem_spec_record_event c _ id now r hr with h1 | h1
      · have := h1.2
        simpa [kept, expired] using this
      · rw [h1]
        simp [clock_sub_self]
    · intro r hr
      rw [r1] at hr
      rcases mem_spec_record_event c _ id now r hr with h1 | h1
      · exact Or.inl h1.1
      · rw [h1]; exact Or.inr rfl
  constructor
  · intro s id now hs
    obtain ⟨s1, e1, f1, _⟩ := main s id now hs
    exact ⟨s1, e1, f1⟩
  · intro s id now hs hnow hle
    obtain ⟨s1, e1, f1, g1⟩ := main s id now hs
    refine ⟨s1, e1, ?_⟩
    intro r hr
    have hrn : r.time ≤ now := by
      rcases g1 r hr with h | h
      · exact hle r h
      · omega
    have := f1 r hr
    rw [clock_sub_eq c now r.time hrn hnow] at this
    exact ⟨hrn, this⟩

theorem C12_freshness_witness :
    (wf example_state ∧
      ∃ s1, add_event example_conf example_state 4 4000 = some s1 ∧
        ∀ r ∈ records s1, clock_sub example_conf 4000 r.time ≤ EVENT_TIMEOUT example_conf) ∧
    (wf example_state ∧ 4000 < 2 ^ example_conf.bits ∧
      (∀ r ∈ records example_state, r.time ≤ 4000) ∧
      ∃ s1, add_event example_conf example_state 4 4000 = some s1 ∧
        ∀ r ∈ records s1, r.time ≤ 4000 ∧ 4000 - r.time ≤ EVENT_TIMEOUT example_conf) :=
  ⟨⟨by decide, (C12_freshness example_conf).1 example_state 4 4000 (by decide)⟩,
    ⟨by decide, by decide, by decide,
      (C12_freshness example_conf).2 example_state 4 4000 (by decide) (by decide) (by decide)⟩⟩


/-! ## The handlers and the yellow LED -/

theorem check_alarm_yellow (s : State) :
    (check_alarm s).leds.yellow = (s.leds.yellow || alarm_condition s) ∧
    (check_alarm s).leds.green = s.leds.green ∧ (check_alarm s).leds.red = s.leds.red ∧
    (check_alarm s).event_count = s.event_count ∧
    (check_alarm s).last_event_time = s.last_event_time := by
  unfold check_alarm
  cases h : alarm_condition s <;> simp

theorem recv_spec (c : ClockConf) (s : State) (src : linkaddr_t) (now : Nat) (hs : wf s) :
    ∃ s1, recv c s src now = some s1 ∧ wf s1 ∧
      records s1 = spec_record_event c (records s) src now ∧
      s1.last_event_time = now ∧
      s1.leds.yellow = (s.leds.yellow || alarm_condition s1) ∧
      s1.leds.green = (!s.leds.green) ∧ s1.leds.red = s.leds.red := by
  have hs0 : wf { s with leds := leds_toggle s.leds LEDS_GREEN } := hs
  obtain ⟨s1, e1, w1, r1, t1, d1⟩ := add_event_spec c _ src now hs0
  obtain ⟨y, g, r, n, t⟩ := check_alarm_yellow s1
  refine ⟨check_alarm s1, by simp only [recv, e1], check_alarm_wf s1 w1, ?_, by rw [t, t1], ?_,
    ?_, ?_⟩
  · rw [records_check_alarm, r1]; rfl
  · have : alarm_condition (check_alarm s1) = alarm_condition s1 := by
      simp only [alarm_condition, n]
    rw [y, this, d1]
    simp [leds_toggle, LEDS_GREEN]
  · rw [g, d1]; simp [leds_toggle, LEDS_GREEN]
  · rw [r, d1]; simp [leds_toggle, LEDS_GREEN]

theorem button_branch_spec (c : ClockConf) (self : linkaddr_t) (s : State) (now : Nat)
    (hs : wf s) :
    ∃ s1, button_branch c self s now = some s1 ∧ wf s1 ∧
      records s1 = spec_record_event c (records s) self now ∧
      s1.last_event_time = now ∧
      s1.leds.yellow = (s.leds.yellow || alarm_condition s1) ∧
      s1.leds.green = s.leds.green ∧ s1.leds.red = (!s.leds.red) := by
  have hs0 : wf { s with leds := leds_toggle s.leds LEDS_RED } := hs
  obtain ⟨s1, e1, w1, r1, t1, d1⟩ := add_event_spec c _ self now hs0
  obtain ⟨y, g, r, n, t⟩ := check_alarm_yellow s1
  refine ⟨check_alarm s1, by simp only [button_branch, e1], check_alarm_wf s1 w1, ?_,
    by rw [t, t1], ?_, ?_, ?_⟩
  · rw [records_check_alarm, r1]; rfl
  · have : alarm_condition (check_alarm s1) = alarm_condition s1 := by
      simp only [alarm_condition, n]
    rw [y, this, d1]
    simp [leds_toggle, LEDS_RED]
  · rw [g, d1]; simp [leds_toggle, LEDS_RED]
  · rw [r, d1]; simp [leds_toggle, LEDS_RED]

theorem run_triggers_cons (c : ClockConf) (self : linkaddr_t) (s s1 : State) (t : Trigger)
    (ts : List Trigger) (h : handle c self s t = some s1) :
    run_triggers c self s (t :: ts) = run_triggers c self s1 ts := by
  simp [run_triggers, h]

/-- C13, as stated, fails: after packets from reporters 1, 2, 3 at ticks 0, 640,
1280 and a packet from reporter 4 at tick 5760 (45 s), each handled by `recv`, the
yellow LED is on although `event_count` is 1, below `MAX_NUMBER_OF_EVENTS`. -/
theorem C13_counterexample :
    ∃ s, run_triggers example_conf 9 (init_state example_leds)
        [Trigger.packet 1 0, Trigger.packet 2 640, Trigger.packet 3 1280,
          Trigger.packet 4 5760] = some s ∧
      s.leds.yellow = true ∧ s.event_count = 1 ∧
      ¬ (s.event_count ≥ MAX_NUMBER_OF_EVENTS) := by
  obtain ⟨s1, e1, w1, r1, _⟩ := recv_spec example_conf (init_state example_leds) 1 0
    (init_state_wf _)
  have q1 : records s1 = [{ time := 0, addr := 1 }] := by rw [r1]; decide
  obtain ⟨s2, e2, w2, r2, _⟩ := recv_spec example_conf s1 2 640 w1
  have q2 : records s2 = [{ time := 0, addr := 1 }, { time := 640, addr := 2 }] := by
    rw [r2, q1]; decide
  obtain ⟨s3, e3, w3, r3, _, y3, _⟩ := recv_spec example_conf s2 3 1280 w2
  have q3 : records s3 = [{ time := 0, addr := 1 }, { time := 640, addr := 2 },
      { time := 1280, addr := 3 }] := by
    rw [r3, q2]; decide
  have c3 : s3.event_count = 3 := by
    have := records_length s3 w3
    rw [q3] at this
    exact this.symm
  have a3 : alarm_condition s3 = true := by
    rw [alarm_condition_iff, c3]; decide
  have z3 : s3.leds.yellow = true := by rw [y3, a3]; simp
  obtain ⟨s4, e4, w4, r4, _, y4, _⟩ := recv_spec example_conf s3 4 5760 w3
  have q4 : records s4 = [{ time := 5760, addr := 4 }] := by
    rw [r4, q3]; decide
  have c4 : s4.event_count = 1 := by
    have := records_length s4 w4
    rw [q4] at this
    exact this.symm
  refine ⟨s4, ?_, by rw [y4, z3]; simp, c4, by rw [c4]; decide⟩
  rw [run_triggers_cons example_conf 9 _ s1 (Trigger.packet 1 0) _ e1,
    run_triggers_cons example_conf 9 s1 s2 (Trigger.packet 2 640) _ e2,
    run_triggers_cons example_conf 9 s2 s3 (Trigger.packet 3 1280) _ e3,
    run_triggers_cons example_conf 9 s3 s4 (Trigger.packet 4 5760) _ e4]
  rfl

/-- C13 (amended): the alarm output is latched. After `recv`, and after the button
branch, the yellow LED is on if and only if it was on before the trigger or
`event_count >= MAX_NUMBER_OF_EVENTS` holds in the resulting state. -/
theorem C13_alarm_latched (c : ClockConf) (self : linkaddr_t) :
    (∀ (s : State) (src : linkaddr_t) (now : Nat), wf s →
      ∃ s1, recv c s src now = some s1 ∧
        (s1.leds.yellow = true ↔
          (s.leds.yellow = true ∨ s1.event_count ≥ MAX_NUMBER_OF_EVENTS))) ∧
    (∀ (s : State) (now : Nat), wf s →
      ∃ s1, button_branch c self s now = some s1 ∧
        (s1.leds.yellow = true ↔
          (s.leds.yellow = true ∨ s1.event_count ≥ MAX_NUMBER_OF_EVENTS))) := by
  constructor
  · intro s src now hs
    obtain ⟨s1, e1, _, _, _, y1, _⟩ := recv_spec c s src now hs
    refine ⟨s1, e1, ?_⟩
    rw [y1, Bool.or_eq_true, alarm_condition_iff]
  · intro s now hs
    obtain ⟨s1, e1, _, _, _, y1, _⟩ := button_branch_spec c self s now hs
    refine ⟨s1, e1, ?_⟩
    rw [y1, Bool.or_eq_true, alarm_condition_iff]

theorem C13_alarm_latched_witness :
    (wf example_state ∧
      ∃ s1, recv example_conf example_state 4 4000 = some s1 ∧
        (s1.leds.yellow = true ↔
          (example_state.leds.yellow = true ∨ s1.event_count ≥ MAX_NUMBER_OF_EVENTS))) ∧
    (wf example_state_b ∧
      ∃ s1, button_branch example_conf 9 example_state_b 4000 = some s1 ∧
        (s1.leds.yellow = true ↔
          (example_state_b.leds.yellow = true ∨ s1.event_count ≥ MAX_NUMBER_OF_EVENTS))) :=
  ⟨⟨by decide, (C13_alarm_latched example_conf 9).1 example_state 4 4000 (by decide)⟩,
    ⟨by decide, (C13_alarm_latched example_conf 9).2 example_state_b 4000 (by decide)⟩⟩

/-- C14 (alarm output transitions): a packet or button trigger (`add_event` then
`check_alarm`) sets the yellow LED on when `event_count >= MAX_NUMBER_OF_EVENTS`
after the call and otherwise leaves it as it was; a timer trigger
(`check_inactivity`) sets it off when `event_count > 0` and
`now - last_event_time > EVENT_TIMEOUT` (unsigned difference) and otherwise leaves
it as it was; nothing else changes it: `add_event` alone and the toggles of the
green and red LEDs leave it as it was. -/
theorem C14_alarm_output_transitions (c : ClockConf) (self : linkaddr_t) :
    (∀ (s : State) (src : linkaddr_t) (now : Nat), wf s →
      ∃ s1, handle c self s (Trigger.packet src now) = some s1 ∧
        s1.leds.yellow
          = if s1.event_count ≥ MAX_NUMBER_OF_EVENTS then true else s.leds.yellow) ∧
    (∀ (s : State) (now : Nat), wf s →
      ∃ s1, handle c self s (Trigger.button now) = some s1 ∧
        s1.leds.yellow
          = if s1.event_count ≥ MAX_NUMBER_OF_EVENTS then true else s.leds.yellow) ∧
    (∀ (s : State) (now : Nat),
      ∃ s1, handle c self s (Trigger.timer now) = some s1 ∧
        s1.leds.yellow
          = if s.event_count > 0 ∧ clock_sub c now s.last_event_time > EVENT_TIMEOUT c
            then false else s.leds.yellow) ∧
    (∀ (s : State) (addr : linkaddr_t) (now : Nat), wf s →
      ∃ s1, add_event c s addr now = some s1 ∧ s1.leds = s.leds) ∧
    (∀ l : Leds, (leds_toggle l LEDS_GREEN).yellow = l.yellow ∧
      (leds_toggle l LEDS_RED).yellow = l.yellow) := by
  refine ⟨?_, ?_, ?_, ?_, ?_⟩
  · intro s src now hs
    obtain ⟨s1, e1, _, _, _, y1, _⟩ := recv_spec c s src now hs
    refine ⟨s1, e1, ?_⟩
    rw [y1]
    by_cases h : s1.event_count ≥ MAX_NUMBER_OF_EVENTS
    · rw [if_pos h, (alarm_condition_iff s1).2 h]; simp
    · rw [if_neg h]
      have : alarm_condition s1 = false := by
        rw [← alarm_condition_iff] at h
        simpa using h
      rw [this]; simp
  · intro s now hs
    obtain ⟨s1, e1, _, _, _, y1, _⟩ := button_branch_spec c self s now hs
    refine ⟨s1, e1, ?_⟩
    rw [y1]
    by_cases h : s1.event_count ≥ MAX_NUMBER_OF_EVENTS
    · rw [if_pos h, (alarm_condition_iff s1).2 h]; simp
    · rw [if_neg h]
      have : alarm_condition s1 = false := by
        rw [← alarm_condition_iff] at h
        simpa using h
      rw [this]; simp
  · intro s now
    refine ⟨check_inactivity c s now, rfl, ?_⟩
    unfold check_inactivity
    by_cases h : s.event_count > 0 ∧ clock_sub c now s.last_event_time > EVENT_TIMEOUT c
    · have hc : inactivity_condition c s now = true := by
        simp [inactivity_condition, h.1, h.2]
      rw [if_pos h, if_pos hc]
    · have hc : ¬ (inactivity_condition c s now = true) := by
        intro hc
        apply h
        simpa [inactivity_condition] using hc
      rw [if_neg h, if_neg hc]
  · intro s addr now hs
    obtain ⟨s1, e1, _, _, _, d1⟩ := add_event_spec c s addr now hs
    exact ⟨s1, e1, d1⟩
  · intro l
    simp [leds_toggle, LEDS_GREEN, LEDS_RED]

theorem C14_alarm_output_transitions_witness :
    (wf example_state ∧
      ∃ s1, handle example_conf 9 example_state (Trigger.packet 4 4000) = some s1 ∧
        s1.leds.yellow
          = if s1.event_count ≥ MAX_NUMBER_OF_EVENTS then true
            else example_state.leds.yellow) ∧
    (wf example_state ∧
      ∃ s1, handle example_conf 9 example_state (Trigger.button 4000) = some s1 ∧
        s1.leds.yellow
          = if s1.event_count ≥ MAX_NUMBER_OF_EVENTS then true
            else example_state.leds.yellow) ∧
    (wf example_state_b ∧
      ∃ s1, add_event example_conf example_state_b 4 4000 = some s1 ∧
        s1.leds = example_state_b.leds) :=
  ⟨⟨by decide,
      (C14_alarm_output_transitions example_conf 9).1 example_state 4 4000 (by decide)⟩,
    ⟨by decide,
      (C14_alarm_output_transitions example_conf 9).2.1 example_state 4000 (by decide)⟩,
    ⟨by decide,
      (C14_alarm_output_transitions example_conf 9).2.2.2.1 example_state_b 4 4000
        (by decide)⟩⟩


/-! ## The role classifier -/

theorem has_children_loop_eq (routes : List route) :
    has_children_loop routes = if ∃ r ∈ routes, r.nexthop ≠ none then 1 else 0 := by
  induction routes with
  | nil => simp [has_children_loop]
  | cons r rest ih =>
    unfold has_children_loop
    by_cases h : r.nexthop ≠ none
    · have : ∃ x ∈ r :: rest, x.nexthop ≠ none := ⟨r, List.mem_cons_self r rest, h⟩
      rw [if_pos h, if_pos this]
    · rw [if_neg h, ih]
      have h2 : r.nexthop = none := by simpa using h
      by_cases hr : ∃ x ∈ rest, x.nexthop ≠ none
      · obtain ⟨x, hx, hxn⟩ := hr
        rw [if_pos ⟨x, hx, hxn⟩, if_pos ⟨x, List.mem_cons_of_mem r hx, hxn⟩]
      · rw [if_neg hr, if_neg]
        rintro ⟨x, hx, hxn⟩
        rcases List.mem_cons.1 hx with h3 | h3
        · rw [h3] at hxn; exact hxn h2
        · exact hr ⟨x, h3, hxn⟩

/-- C15 (role classifier): for every `node_id`, reachability result, routing table
and previous LED state, `update_node_role` leaves the LEDs in a state fixed by the
first three alone: green only for the root (`node_id == 1`), yellow only for a
reachable non-root node some route of which has a non-NULL next hop, red only for
a reachable non-root node without such a route, all off otherwise; so the result
does not depend on the previous LEDs and at most one LED is on. -/
theorem C15_role_classifier (node_id : Nat) (reachable : Int) (routes : List route)
    (l : Leds) :
    update_node_role node_id reachable routes l
      = (if node_id = 1 then { green := true, yellow := false, red := false }
         else if reachable ≠ 0 ∧ ∃ r ∈ routes, r.nexthop ≠ none then
           { green := false, yellow := true, red := false }
         else if reachable ≠ 0 then { green := false, yellow := false, red := true }
         else { green := false, yellow := false, red := false }) ∧
    (∀ l2 : Leds, update_node_role node_id reachable routes l2
      = update_node_role node_id reachable routes l) ∧
    ¬ ((update_node_role node_id reachable routes l).green = true ∧
        (update_node_role node_id reachable routes l).yellow = true) ∧
    ¬ ((update_node_role node_id reachable routes l).green = true ∧
        (update_node_role node_id reachable routes l).red = true) ∧
    ¬ ((update_node_role node_id reachable routes l).yellow = true ∧
        (update_node_role node_id reachable routes l).red = true) := by
  have key : ∀ l2 : Leds, update_node_role node_id reachable routes l2
      = (if node_id = 1 then { green := true, yellow := false, red := false }
         else if reachable ≠ 0 ∧ ∃ r ∈ routes, r.nexthop ≠ none then
           { green := false, yellow := true, red := false }
         else if reachable ≠ 0 then { green := false, yellow := false, red := true }
         else { green := false, yellow := false, red := false }) := by
    intro l2
    unfold update_node_role
    simp only [has_children_loop_eq]
    by_cases h1 : node_id = 1
    · simp [h1, leds_on, leds_off, leds_or, LEDS_GREEN, LEDS_YELLOW, LEDS_RED]
    · by_cases h2 : reachable ≠ 0
      · by_cases h3 : ∃ r ∈ routes, r.nexthop ≠ none
        · simp [h1, h2, h3, leds_on, leds_off, leds_or, LEDS_GREEN, LEDS_YELLOW, LEDS_RED]
        · simp [h1, h2, h3, leds_on, leds_off, leds_or, LEDS_GREEN, LEDS_YELLOW, LEDS_RED]
      · simp [h1, h2, leds_on, leds_off, leds_or, LEDS_GREEN, LEDS_YELLOW, LEDS_RED]
  refine ⟨key l, fun l2 => by rw [key l2, key l], ?_, ?_, ?_⟩
  all_goals
    rw [key l]
    split
    · simp
    · split
      · simp
      · split <;> simp


/-! ## Clock values that go backwards -/

theorem clock_sub_wrap (c : ClockConf) (now t : Nat) (h1 : now < t) (h2 : t < 2 ^ c.bits) :
    clock_sub c now t = 2 ^ c.bits - (t - now) := by
  unfold clock_sub
  have hm : ((2 : Int) ^ c.bits) = ((2 ^ c.bits : Nat) : Int) := by push_cast; rfl
  have h3 : ((now : Int) - (t : Int)) % ((2 : Int) ^ c.bits)
      = (now : Int) - (t : Int) + ((2 : Int) ^ c.bits) := by
    rw [← Int.add_emod_self]
    apply Int.emod_eq_of_lt
    · rw [hm]; omega
    · rw [hm]; omega
  rw [h3, hm]
  omega

/-- C16, as stated, fails: with a 32-bit clock, `add_event` at tick 1000 expires
the record stored at tick 1280 (the difference wraps instead of being clamped to
zero), and `check_inactivity` at tick 1000 with `last_event_time = 1280` meets its
switch-off condition. -/
theorem C16_counterexample :
    ((1000 : Nat) < 1280 ∧
      ({ time := 1280, addr := 3 } : event) ∈ records example_state ∧
      ∃ s1, add_event example_conf example_state 1 1000 = some s1 ∧
        ({ time := 1280, addr := 3 } : event) ∉ records s1) ∧
    ((1000 : Nat) < example_state.last_event_time ∧
      inactivity_condition example_conf example_state 1000 = true) := by
  obtain ⟨s1, e1, _, r1, _⟩ := add_event_spec example_conf example_state 1 1000 (by decide)
  have q1 : records s1 = [{ time := 0, addr := 1 }, { time := 640, addr := 2 }] := by
    rw [r1]; decide
  exact ⟨⟨by decide, by decide, s1, e1, by rw [q1]; decide⟩, by decide, by decide⟩

/-- C16 (amended): a clock value `now` smaller than a stored timestamp `t`
(respectively than `last_event_time`) is not clamped: the difference wraps to
`2 ^ bits - (t - now)`. So `add_event` keeps such a record if and only if
`2 ^ bits - (t - now) <= EVENT_TIMEOUT`, and `check_inactivity` meets its
switch-off condition if and only if `event_count > 0` and
`2 ^ bits - (last_event_time - now) > EVENT_TIMEOUT`. -/
theorem C16_time_wraps (c : ClockConf) :
    (∀ now t : Nat, now < t → t < 2 ^ c.bits → clock_sub c now t = 2 ^ c.bits - (t - now)) ∧
    (∀ (s : State) (id : linkaddr_t) (now : Nat) (r : event), wf s → r ∈ records s →
      now < r.time → r.time < 2 ^ c.bits →
      ∃ s1, add_event c s id now = some s1 ∧
        (r ∈ records s1 ↔ 2 ^ c.bits - (r.time - now) ≤ EVENT_TIMEOUT c)) ∧
    (∀ (s : State) (now : Nat), now < s.last_event_time → s.last_event_time < 2 ^ c.bits →
      (inactivity_condition c s now = true ↔
        (s.event_count > 0 ∧ 2 ^ c.bits - (s.last_event_time - now) > EVENT_TIMEOUT c))) := by
  refine ⟨clock_sub_wrap c, ?_, ?_⟩
  · intro s id now r hs hr hlt hbits
    obtain ⟨s1, e1, _, r1, _⟩ := add_event_spec c s id now hs
    refine ⟨s1, e1, ?_⟩
    have hk : kept c now r = true ↔ 2 ^ c.bits - (r.time - now) ≤ EVENT_TIMEOUT c := by
      simp [kept, expired, clock_sub_wrap c now r.time hlt hbits]
    rw [r1, ← hk]
    constructor
    · intro hmem
      rcases mem_spec_record_event c _ id now r hmem with h1 | h1
      · exact h1.2
      · have := congrArg event.time h1
        simp at this
        omega
    · intro hkept
      have hsv : r ∈ (records s).filter (kept c now) := List.mem_filter.2 ⟨hr, hkept⟩
      unfold spec_record_event
      simp only []
      split
      · exact List.mem_append_left _ hsv
      · exact hsv
  · intro s now hlt hbits
    simp [inactivity_condition, clock_sub_wrap c now s.last_event_time hlt hbits]

theorem C16_time_wraps_witness :
    ((1000 : Nat) < 1280 ∧ 1280 < 2 ^ example_conf.bits ∧
      clock_sub example_conf 1000 1280 = 2 ^ example_conf.bits - (1280 - 1000)) ∧
    (wf example_state ∧ ({ time := 1280, addr := 3 } : event) ∈ records example_state ∧
      1000 < ({ time := 1280, addr := 3 } : event).time ∧
      ({ time := 1280, addr := 3 } : event).time < 2 ^ example_conf.bits ∧
      ∃ s1, add_event example_conf example_state 1 1000 = some s1 ∧
        (({ time := 1280, addr := 3 } : event) ∈ records s1 ↔
          2 ^ example_conf.bits - (({ time := 1280, addr := 3 } : event).time - 1000)
            ≤ EVENT_TIMEOUT example_conf)) ∧
    (1000 < example_state.last_event_time ∧
      example_state.last_event_time < 2 ^ example_conf.bits ∧
      (inactivity_condition example_conf example_state 1000 = true ↔
        (example_state.event_count > 0 ∧
          2 ^ example_conf.bits - (example_state.last_event_time - 1000)
            > EVENT_TIMEOUT example_conf))) :=
  ⟨⟨by decide, by decide, (C16_time_wraps example_conf).1 1000 1280 (by decide) (by decide)⟩,
    ⟨by decide, by decide, by decide, by decide,
      (C16_time_wraps example_conf).2.1 example_state 1 1000 { time := 1280, addr := 3 }
        (by decide) (by decide) (by decide) (by decide)⟩,
    ⟨by decide, by decide,
      (C16_time_wraps example_conf).2.2 example_state 1000 (by decide) (by decide)⟩⟩


/-! ## The history after the first event -/

theorem spec_record_event_nonempty (c : ClockConf) (rs : List event) (addr : linkaddr_t)
    (now : Nat) :
    (∃ r ∈ spec_record_event c rs addr now, r.addr = addr) ∨
      ((spec_record_event c rs addr now).length : Int) ≥ MAX_NUMBER_OF_EVENTS := by
  by_cases h : (∀ r ∈ rs.filter (kept c now), r.addr ≠ addr) ∧
      ((rs.filter (kept c now)).length : Int) < MAX_NUMBER_OF_EVENTS
  · left
    rw [spec_record_event_accept c rs addr now h.1 h.2]
    exact ⟨{ time := now, addr := addr }, by simp, rfl⟩
  · rw [spec_record_event_reject c rs addr now h]
    by_cases h1 : ∀ r ∈ rs.filter (kept c now), r.addr ≠ addr
    · right
      have : ¬ (((rs.filter (kept c now)).length : Int) < MAX_NUMBER_OF_EVENTS) :=
        fun h2 => h ⟨h1, h2⟩
      omega
    · left
      push_neg at h1
      exact h1

theorem add_event_count_pos (c : ClockConf) (s : State) (id : linkaddr_t) (now : Nat)
    (hs : wf s) :
    ∃ s1, add_event c s id now = some s1 ∧ wf s1 ∧
      ((∃ r ∈ records s1, r.addr = id) ∨ s1.event_count = MAX_NUMBER_OF_EVENTS) ∧
      s1.event_count ≥ 1 := by
  obtain ⟨s1, e1, w1, r1, _⟩ := add_event_spec c s id now hs
  have hl := records_length s1 w1
  have hdisj : (∃ r ∈ records s1, r.addr = id) ∨ s1.event_count = MAX_NUMBER_OF_EVENTS := by
    rcases spec_record_event_nonempty c (records s) id now with h | h
    · left; rw [r1]; exact h
    · right
      rw [← r1, hl] at h
      exact le_antisymm w1.2.2 h
  refine ⟨s1, e1, w1, hdisj, ?_⟩
  rcases hdisj with ⟨r, hr, _⟩ | h
  · have : 0 < (records s1).length := List.length_pos_of_mem hr
    omega
  · rw [h]; decide

theorem run_count_pos (c : ClockConf) :
    ∀ (calls : List Call) (s : State), wf s →
      ∃ s1, run c s calls = some s1 ∧ wf s1 ∧
        (calls.any is_add_event = true → s1.event_count > 0) ∧
        (calls.any is_add_event = false → s1.event_count = s.event_count) ∧
        (s.event_count > 0 → s1.event_count > 0) := by
  intro calls
  induction calls with
  | nil =>
    intro s hs
    exact ⟨s, rfl, hs, by simp, by simp, fun h => h⟩
  | cons x xs ih =>
    intro s hs
    cases x with
    | add_event addr now =>
      obtain ⟨s1, e1, w1, _, p1⟩ := add_event_count_pos c s addr now hs
      obtain ⟨s2, e2, w2, _, _, k2⟩ := ih s1 w1
      have hpos : s2.event_count > 0 := k2 (by omega)
      refine ⟨s2, ?_, w2, fun _ => hpos, ?_, fun _ => hpos⟩
      · rw [run_cons c s s1 (Call.add_event addr now) xs e1]; exact e2
      · intro hno
        simp [is_add_event] at hno
    | check_alarm =>
      obtain ⟨s2, e2, w2, a2, b2, k2⟩ := ih (check_alarm s) (check_alarm_wf s hs)
      have hc : (check_alarm s).event_count = s.event_count := (check_alarm_yellow s).2.2.2.1
      refine ⟨s2, ?_, w2, ?_, ?_, ?_⟩
      · rw [run_cons c s (check_alarm s) Call.check_alarm xs rfl]; exact e2
      · intro hany
        apply a2
        simpa [is_add_event] using hany
      · intro hno
        rw [← hc]
        apply b2
        simpa [is_add_event] using hno
      · intro hp
        exact k2 (by rw [hc]; exact hp)
    | check_inactivity now0 =>
      obtain ⟨s2, e2, w2, a2, b2, k2⟩ :=
        ih (check_inactivity c s now0) (check_inactivity_wf c s now0 hs)
      have hc : (check_inactivity c s now0).event_count = s.event_count := by
        unfold check_inactivity
        split <;> rfl
      refine ⟨s2, ?_, w2, ?_, ?_, ?_⟩
      · rw [run_cons c s (check_inactivity c s now0) (Call.check_inactivity now0) xs rfl]
        exact e2
      · intro hany
        apply a2
        simpa [is_add_event] using hany
      · intro hno
        rw [← hc]
        apply b2
        simpa [is_add_event] using hno
      · intro hp
        exact k2 (by rw [hc]; exact hp)

/-- C17 (the history is never empty again after the first event): on every
well-formed state `add_event(id)` returns and afterwards a record with address
`id` is present or `event_count` equals `MAX_NUMBER_OF_EVENTS`, so
`event_count >= 1`; `check_inactivity` does not change `event_count`; hence in
every state reached from the initial one `event_count > 0` holds if and only if
the calls made so far include an `add_event`, and the switch-off condition of
`check_inactivity` is then the timeout test alone. -/
theorem C17_never_empty_again (c : ClockConf) :
    (∀ (s : State) (id : linkaddr_t) (now : Nat), wf s →
      ∃ s1, add_event c s id now = some s1 ∧
        ((∃ r ∈ records s1, r.addr = id) ∨ s1.event_count = MAX_NUMBER_OF_EVENTS) ∧
        s1.event_count ≥ 1) ∧
    (∀ (s : State) (now : Nat), (check_inactivity c s now).event_count = s.event_count) ∧
    (∀ (l : Leds) (calls : List Call),
      ∃ s, run c (init_state l) calls = some s ∧
        (s.event_count > 0 ↔ calls.any is_add_event = true) ∧
        (∀ now, inactivity_condition c s now
          = (calls.any is_add_event &&
              decide (clock_sub c now s.last_event_time > EVENT_TIMEOUT c)))) := by
  refine ⟨?_, ?_, ?_⟩
  · intro s id now hs
    obtain ⟨s1, e1, _, d1, p1⟩ := add_event_count_pos c s id now hs
    exact ⟨s1, e1, d1, p1⟩
  · intro s now
    unfold check_inactivity
    split <;> rfl
  · intro l calls
    obtain ⟨s, e, _, a, b, _⟩ := run_count_pos c calls (init_state l) (init_state_wf l)
    have hiff : s.event_count > 0 ↔ calls.any is_add_event = true := by
      constructor
      · intro hp
        by_contra hno
        have := b (by simpa using hno)
        rw [this] at hp
        exact absurd hp (by simp [init_state])
      · exact a
    refine ⟨s, e, hiff, ?_⟩
    intro now
    unfold inactivity_condition
    congr 1
    cases hany : calls.any is_add_event
    · have : ¬ (s.event_count > 0) := by rw [hiff, hany]; simp
      simpa using this
    · have : s.event_count > 0 := hiff.2 hany
      simpa using this

theorem C17_never_empty_again_witness :
    wf example_state ∧
    ∃ s1, add_event example_conf example_state 4 4000 = some s1 ∧
      ((∃ r ∈ records s1, r.addr = 4) ∨ s1.event_count = MAX_NUMBER_OF_EVENTS) ∧
      s1.event_count ≥ 1 :=
  ⟨by decide, (C17_never_empty_again example_conf).1 example_state 4 4000 (by decide)⟩


/-! ## Time order of the records -/

theorem kept_iff_of_le (c : ClockConf) (now : Nat) (r : event) (h1 : r.time ≤ now)
    (h2 : now < 2 ^ c.bits) : kept c now r = true ↔ now - r.time ≤ EVENT_TIMEOUT c := by
  simp [kept, expired, clock_sub_eq c now r.time h1 h2]

theorem filter_kept_eq_drop (c : ClockConf) (now : Nat) (hnow : now < 2 ^ c.bits) :
    ∀ rs : List event, rs.Pairwise (fun a b => a.time ≤ b.time) →
      (∀ r ∈ rs, r.time ≤ now) → ∃ k, rs.filter (kept c now) = rs.drop k := by
  intro rs
  induction rs with
  | nil => intro _ _; exact ⟨0, rfl⟩
  | cons r rest ih =>
    intro hp hle
    rw [List.pairwise_cons] at hp
    by_cases hk : kept c now r = true
    · refine ⟨0, ?_⟩
      rw [List.drop_zero, List.filter_eq_self]
      intro x hx
      rcases List.mem_cons.1 hx with h | h
      · rw [h]; exact hk
      · have hx1 : x.time ≤ now := hle x hx
        have hr1 : r.time ≤ now := hle r (List.mem_cons_self r rest)
        have hrx : r.time ≤ x.time := hp.1 x h
        rw [kept_iff_of_le c now r hr1 hnow] at hk
        rw [kept_iff_of_le c now x hx1 hnow]
        omega
    · obtain ⟨k, hk2⟩ := ih hp.2 (fun x hx => hle x (List.mem_cons_of_mem r hx))
      refine ⟨k + 1, ?_⟩
      rw [List.filter_cons_of_neg hk, hk2, List.drop_succ_cons]

theorem add_event_time_ordered (c : ClockConf) (s : State) (id : linkaddr_t) (now : Nat)
    (hs : wf s) (ho : time_ordered s) (hle : s.last_event_time ≤ now) :
    ∃ s1, add_event c s id now = some s1 ∧ wf s1 ∧ time_ordered s1 ∧
      s1.last_event_time = now := by
  obtain ⟨s1, e1, w1, r1, t1, _⟩ := add_event_spec c s id now hs
  refine ⟨s1, e1, w1, ?_, t1⟩
  obtain ⟨hp, hb⟩ := ho
  have hsvp : ((records s).filter (kept c now)).Pairwise (fun a b => a.time ≤ b.time) :=
    hp.sublist (List.filter_sublist _)
  have hsvb : ∀ r ∈ (records s).filter (kept c now), r.time ≤ now :=
    fun r hr => le_trans (hb r (List.mem_of_mem_filter hr)) hle
  unfold time_ordered
  rw [r1, t1]
  unfold spec_record_event
  simp only []
  split
  · constructor
    · rw [List.pairwise_append]
      refine ⟨hsvp, List.pairwise_singleton _ _, ?_⟩
      intro a ha b hb2
      rw [List.mem_singleton] at hb2
      rw [hb2]
      exact hsvb a ha
    · intro r hr
      rcases List.mem_append.1 hr with h | h
      · exact hsvb r h
      · rw [List.mem_singleton] at h
        rw [h]
  · exact ⟨hsvp, hsvb⟩

theorem run_time_ordered (c : ClockConf) :
    ∀ (evs : List (linkaddr_t × Nat)) (s : State), wf s → time_ordered s →
      List.Chain (fun a b => a ≤ b) s.last_event_time (evs.map Prod.snd) →
      ∃ s1, run c s (evs.map (fun p => Call.add_event p.1 p.2)) = some s1 ∧ wf s1 ∧
        time_ordered s1 ∧
        (∀ now, s.last_event_time ≤ now → (∀ p ∈ evs, p.2 ≤ now) →
          s1.last_event_time ≤ now) := by
  intro evs
  induction evs with
  | nil =>
    intro s hs ho _
    exact ⟨s, rfl, hs, ho, fun now h _ => h⟩
  | cons p ps ih =>
    intro s hs ho hch
    rw [List.map_cons, List.chain_cons] at hch
    obtain ⟨s1, e1, w1, o1, t1⟩ := add_event_time_ordered c s p.1 p.2 hs ho hch.1
    obtain ⟨s2, e2, w2, o2, b2⟩ := ih s1 w1 o1 (by rw [t1]; exact hch.2)
    refine ⟨s2, ?_, w2, o2, ?_⟩
    · rw [List.map_cons, run_cons c s s1 (Call.add_event p.1 p.2) _ e1]
      exact e2
    · intro now _ hall
      apply b2 now
      · rw [t1]; exact hall p (List.mem_cons_self p ps)
      · exact fun q hq => hall q (List.mem_cons_of_mem p hq)

theorem init_state_time_ordered (l : Leds) : time_ordered (init_state l) := by
  simp [time_ordered, records, init_state]

/-- C18 (time order): `add_event` at a clock value not smaller than
`last_event_time` keeps the records in non-decreasing order of time, none later
than `last_event_time`. So after every sequence of `add_event` calls with
non-decreasing clock values from the initial state the records are so ordered,
and the expiry pass of a following `add_event`, at a clock value `now` that is
not smaller than the earlier ones and has not wrapped, leaves the records without
some prefix: it removes exactly a prefix of the record list. -/
theorem C18_time_order (c : ClockConf) :
    (∀ (s : State) (id : linkaddr_t) (now : Nat), wf s → time_ordered s →
      s.last_event_time ≤ now →
      ∃ s1, add_event c s id now = some s1 ∧ time_ordered s1) ∧
    (∀ (l : Leds) (evs : List (linkaddr_t × Nat)) (now : Nat),
      List.Chain (fun a b => a ≤ b) 0 (evs.map Prod.snd) →
      (∀ p ∈ evs, p.2 ≤ now) → now < 2 ^ c.bits →
      ∃ s s1 k, run c (init_state l) (evs.map (fun p => Call.add_event p.1 p.2)) = some s ∧
        (records s).Pairwise (fun a b => a.time ≤ b.time) ∧
        (∀ r ∈ records s, r.time ≤ s.last_event_time) ∧
        expire_loop c now { s with last_event_time := now } 0 = some s1 ∧
        records s1 = (records s).drop k) := by
  constructor
  · intro s id now hs ho hle
    obtain ⟨s1, e1, _, o1, _⟩ := add_event_time_ordered c s id now hs ho hle
    exact ⟨s1, e1, o1⟩
  · intro l evs now hch hall hnow
    obtain ⟨s, e, w, o, b⟩ := run_time_ordered c evs (init_state l) (init_state_wf l)
      (init_state_time_ordered l) hch
    have hlast : s.last_event_time ≤ now := b now (Nat.zero_le _) hall
    have hs0 : wf { s with last_event_time := now } := w
    obtain ⟨s1, e1, _, _, _, r1⟩ := expire_pass_spec c now _ hs0
    have r1 : records s1 = (records s).filter (kept c now) := r1
    obtain ⟨k, hk⟩ := filter_kept_eq_drop c now hnow (records s) o.1
      (fun r hr => le_trans (o.2 r hr) hlast)
    exact ⟨s, s1, k, e, o.1, o.2, e1, by rw [r1, hk]⟩

theorem C18_time_order_witness :
    (wf example_state ∧ time_ordered example_state ∧ example_state.last_event_time ≤ 4000 ∧
      ∃ s1, add_event example_conf example_state 4 4000 = some s1 ∧ time_ordered s1) ∧
    (List.Chain (fun a b => a ≤ b) 0
        (([(1, 0), (2, 640), (3, 1280)] : List (linkaddr_t × Nat)).map Prod.snd) ∧
      (∀ p ∈ ([(1, 0), (2, 640), (3, 1280)] : List (linkaddr_t × Nat)), p.2 ≤ 4000) ∧
      4000 < 2 ^ example_conf.bits ∧
      ∃ s s1 k, run example_conf (init_state example_leds)
          (([(1, 0), (2, 640), (3, 1280)] : List (linkaddr_t × Nat)).map
            (fun p => Call.add_event p.1 p.2)) = some s ∧
        (records s).Pairwise (fun a b => a.time ≤ b.time) ∧
        (∀ r ∈ records s, r.time ≤ s.last_event_time) ∧
        expire_loop example_conf 4000 { s with last_event_time := 4000 } 0 = some s1 ∧
        records s1 = (records s).drop k) :=
  ⟨⟨by decide, by simp [time_ordered, records, example_state], by decide,
      (C18_time_order example_conf).1 example_state 4 4000 (by decide)
        (by simp [time_ordered, records, example_state]) (by decide)⟩,
    ⟨by simp, by simp, by decide,
      (C18_time_order example_conf).2 example_leds [(1, 0), (2, 640), (3, 1280)] 4000
        (by simp) (by simp) (by decide)⟩⟩


/-! ## Totality and array bounds -/

theorem arr_get_isSome (h : List event) (k : Int) :
    (arr_get h k).isSome = true ↔ 0 ≤ k ∧ k < (h.length : Int) := by
  unfold arr_get
  by_cases hk : 0 ≤ k
  · obtain ⟨n, hn⟩ := Int.eq_ofNat_of_zero_le hk
    subst hn
    by_cases hl : n < h.length
    · simp [List.getElem?_eq_getElem hl, hl]
    · have : h[n]? = none := List.getElem?_eq_none (by omega)
      simp [this, hl]
  · simp [hk]

theorem arr_set_isSome (h : List event) (k : Int) (e : event) :
    (arr_set h k e).isSome = true ↔ 0 ≤ k ∧ k < (h.length : Int) := by
  unfold arr_set
  by_cases hk : 0 ≤ k
  · obtain ⟨n, hn⟩ := Int.eq_ofNat_of_zero_le hk
    subst hn
    by_cases hl : n < h.length
    · simp [hl]
    · simp [hl]
  · simp [hk]

theorem expire_loop_unfold (c : ClockConf) (now : Nat) (s : State) (i : Int) :
    expire_loop c now s i
      = if i < s.event_count then
          match expire_body c now s i with
          | none => none
          | some p => expire_loop c now p.1 p.2
        else some s := by
  rw [expire_loop]
  unfold expire_body
  by_cases hi : i < s.event_count
  · simp only [hi, if_true]
    cases arr_get s.event_history i with
    | none => rfl
    | some e =>
      simp only []
      by_cases hx : expired c now e = true
      · simp only [hx, if_true]
        cases shift_loop s.event_history s.event_count i with
        | none => rfl
        | some h1 => rfl
      · simp only [hx]
        rfl
  · simp only [hi, if_false]

theorem expire_body_spec (c : ClockConf) (now : Nat) (s : State) (i : Int) (hs : wf s)
    (h0 : 0 ≤ i) (hi : i < s.event_count) :
    ∃ s1 i1, expire_body c now s i = some (s1, i1) ∧ wf s1 ∧ 0 ≤ i1 ∧
      i1 ≤ s1.event_count ∧ s1.event_count ≤ s.event_count ∧
      (s1.event_count - i1).toNat < (s.event_count - i).toNat := by
  obtain ⟨l1, p1, q1⟩ := hs
  obtain ⟨n, hn⟩ := Int.eq_ofNat_of_zero_le p1
  obtain ⟨k, hk⟩ := Int.eq_ofNat_of_zero_le h0
  subst hk
  simp only [MAX_NUMBER_OF_EVENTS] at q1
  have hkn : k < n := by omega
  have hkl : k < s.event_history.length := by omega
  have hget : arr_get s.event_history (k : Int) = some s.event_history[k] := by
    rw [arr_get_nat, List.getElem?_eq_getElem hkl]
  unfold expire_body
  simp only [hget]
  by_cases hx : expired c now s.event_history[k] = true
  · obtain ⟨h1, e1, len1, _⟩ := shift_loop_take s.event_history n k hkn (by omega)
    rw [← hn] at e1
    simp only [hx, if_true, e1]
    refine ⟨_, _, rfl, ⟨by simpa [len1] using l1, by simp; omega,
      by simp [MAX_NUMBER_OF_EVENTS]; omega⟩, by omega, by simp; omega, by simp, ?_⟩
    simp only [sub_add_cancel]
    omega
  · simp only [hx]
    refine ⟨s, (k : Int) + 1, rfl, ⟨l1, p1, by simpa [MAX_NUMBER_OF_EVENTS] using q1⟩,
      by omega, by omega, le_refl _, by omega⟩

/-- C19 (`add_event` is total and in bounds): an access to `event_history[k]` of
the three-element array succeeds exactly for `0 <= k < MAX_NUMBER_OF_EVENTS`; on
every state with the array in place and `0 <= event_count <=
MAX_NUMBER_OF_EVENTS`, every iteration of the expiry loop (body with its `i--`,
then `i++`) performs its accesses in bounds, keeps `0 <= i <= event_count <=
MAX_NUMBER_OF_EVENTS` and strictly decreases `event_count - i`, so the loop
terminates; and `add_event` as a whole returns, all its accesses including the
admission store being in bounds, with `event_count` again within
`0 .. MAX_NUMBER_OF_EVENTS`. -/
theorem C19_total_in_bounds (c : ClockConf) :
    (∀ (h : List event) (k : Int) (e : event), h.length = 3 →
      ((arr_get h k).isSome = true ↔ 0 ≤ k ∧ k < MAX_NUMBER_OF_EVENTS) ∧
      ((arr_set h k e).isSome = true ↔ 0 ≤ k ∧ k < MAX_NUMBER_OF_EVENTS)) ∧
    (∀ (s : State) (i : Int) (now : Nat),
      expire_loop c now s i
        = if i < s.event_count then
            match expire_body c now s i with
            | none => none
            | some p => expire_loop c now p.1 p.2
          else some s) ∧
    (∀ (s : State) (i : Int) (now : Nat), wf s → 0 ≤ i → i < s.event_count →
      ∃ s1 i1, expire_body c now s i = some (s1, i1) ∧
        s1.event_history.length = 3 ∧
        0 ≤ i1 ∧ i1 ≤ s1.event_count ∧ s1.event_count ≤ MAX_NUMBER_OF_EVENTS ∧
        (s1.event_count - i1).toNat < (s.event_count - i).toNat) ∧
    (∀ (s : State) (addr : linkaddr_t) (now : Nat), wf s →
      ∃ s0 s1, expire_loop c now { s with last_event_time := now } 0 = some s0 ∧
        0 ≤ s0.event_count ∧ s0.event_count ≤ s.event_count ∧
        add_event c s addr now = some s1 ∧
        s1.event_history.length = 3 ∧
        0 ≤ s1.event_count ∧ s1.event_count ≤ MAX_NUMBER_OF_EVENTS) := by
  refine ⟨?_, ?_, ?_, ?_⟩
  · intro h k e hl
    have h3 : (h.length : Int) = MAX_NUMBER_OF_EVENTS := by rw [hl]; rfl
    rw [arr_get_isSome, arr_set_isSome, h3]
    exact ⟨Iff.rfl, Iff.rfl⟩
  · intro s i now
    exact expire_loop_unfold c now s i
  · intro s i now hs h0 hi
    obtain ⟨s1, i1, e1, w1, a1, b1, _, d1⟩ := expire_body_spec c now s i hs h0 hi
    exact ⟨s1, i1, e1, w1.1, a1, b1, w1.2.2, d1⟩
  · intro s addr now hs
    have hs0 : wf { s with last_event_time := now } := hs
    obtain ⟨n, hn⟩ := Int.eq_ofNat_of_zero_le hs.2.1
    have hq := hs.2.2
    simp only [MAX_NUMBER_OF_EVENTS] at hq
    obtain ⟨s0, e0, _, _, _, p0, q0, _⟩ :=
      expire_loop_spec c now n { s with last_event_time := now } n 0 hn rfl (Nat.zero_le _)
        (by have := hs.1; show n ≤ s.event_history.length; omega)
    obtain ⟨s1, e1, w1, _⟩ := add_event_spec c s addr now hs
    exact ⟨s0, s1, by simpa using e0, p0, q0, e1, w1.1, w1.2.1, w1.2.2⟩

theorem C19_total_in_bounds_witness :
    (example_state.event_history.length = 3 ∧
      ((arr_get example_state.event_history 3).isSome = true
        ↔ (0 : Int) ≤ 3 ∧ (3 : Int) < MAX_NUMBER_OF_EVENTS) ∧
      ((arr_set example_state.event_history (-1) { time := 0, addr := 0 }).isSome = true
        ↔ (0 : Int) ≤ -1 ∧ (-1 : Int) < MAX_NUMBER_OF_EVENTS)) ∧
    (wf example_state ∧ (0 : Int) ≤ 0 ∧ (0 : Int) < example_state.event_count ∧
      ∃ s1 i1, expire_body example_conf 4000 example_state 0 = some (s1, i1) ∧
        s1.event_history.length = 3 ∧
        0 ≤ i1 ∧ i1 ≤ s1.event_count ∧ s1.event_count ≤ MAX_NUMBER_OF_EVENTS ∧
        (s1.event_count - i1).toNat < (example_state.event_count - 0).toNat) ∧
    (wf example_state ∧
      ∃ s0 s1, expire_loop example_conf 4000
          { example_state with last_event_time := 4000 } 0 = some s0 ∧
        0 ≤ s0.event_count ∧ s0.event_count ≤ example_state.event_count ∧
        add_event example_conf example_state 4 4000 = some s1 ∧
        s1.event_history.length = 3 ∧
        0 ≤ s1.event_count ∧ s1.event_count ≤ MAX_NUMBER_OF_EVENTS) :=
  ⟨⟨by decide,
      ((C19_total_in_bounds example_conf).1 example_state.event_history 3
        { time := 0, addr := 0 } (by decide)).1,
      ((C19_total_in_bounds example_conf).1 example_state.event_history (-1)
        { time := 0, addr := 0 } (by decide)).2⟩,
    ⟨by decide, by decide, by decide,
      (C19_total_in_bounds example_conf).2.2.1 example_state 0 4000
        (by decide) (by decide) (by decide)⟩,
    ⟨by decide, (C19_total_in_bounds example_conf).2.2.2 example_state 4 4000 (by decide)⟩⟩

end ClickerNg
